import Mathlib

/-!
Verification of the `U8AVLTree` flat-array AVL tree of `src/collections/u8_avl_tree.rs`.

The tree lives in a caller-supplied buffer split into an allocator header
(`U8Allocator`, five `u8` fields plus padding) and a contiguous array of
nodes (`U8Node`), each carrying `left`/`right`/`height` registers (`u8`)
plus an embedded key and value.  Node addresses are 1-based `u8` indices;
index 0 (`SENTINEL`) means "no node".

The model below is a direct shallow embedding of the Rust source,
instantiated at `K = V = Nat` (the source is generic over `PartialOrd`
keys; the repository tests use `u32`).  `u8` fields are modelled as `Nat`
with an explicit `% 256` applied wherever the source stores or computes a
`u8` (release-mode wrapping semantics); `i8` arithmetic in
`balance_factor` is modelled on `Int` with explicit 8-bit wrapping.
Functions that can panic or diverge in Rust (`add` on a full allocator,
descent loops on a corrupted tree) return `Option`, `none` marking the
panic; loops are given fuel `nodes.length + 1`, which suffices for every
well-formed tree.  Out-of-range node accesses (which panic in Rust) read
a zeroed node / drop the write; no theorem below depends on an
out-of-range access.
-/

/-- Constant to represent an empty value (`SENTINEL` in the source). -/
def SENTINEL : Nat := 0

/-- The fields of a node (`Register` in the source). -/
inductive Register where
  | left
  | right
  | height
deriving DecidableEq, Repr

/-- Numeric index of a register inside the `registers` array. -/
def Register.idx : Register → Nat
  | .left => 0
  | .right => 1
  | .height => 2

/-- The fields of the allocator (`Field` in the source). -/
inductive AField where
  | root
  | size
  | capacity
  | freeListHead
  | sequence
deriving DecidableEq, Repr

/-- Numeric index of an allocator field inside the `fields` array. -/
def AField.idx : AField → Nat
  | .root => 0
  | .size => 1
  | .capacity => 2
  | .freeListHead => 3
  | .sequence => 4

/-- A path entry `(parent, branch, child)` recorded while descending
(`Ancestor` in the source). -/
abbrev Ancestor : Type := Option Nat × Option Register × Nat

/-- Wrapping `u8` subtraction (`a - b` on `u8` in release mode).
Arguments are assumed `< 256`, which every stored field satisfies. -/
def u8sub (a b : Nat) : Nat := (a + 256 - b % 256) % 256

/-- Reinterpret a `u8` value as an `i8` (the `as i8` cast). -/
def i8ofU8 (n : Nat) : Int := if n % 256 < 128 then (n % 256 : Int) else (n % 256 : Int) - 256

/-- Wrap an integer into the `i8` range (release-mode `i8` overflow). -/
def i8wrap (z : Int) : Int := (z + 128) % 256 - 128

/-- A tree node: three `u8` registers (left, right, height) plus padding,
an embedded key and an embedded value (`U8Node` in the source,
instantiated at `K = V = Nat`). -/
structure U8Node where
  registers : List Nat
  key : Nat
  value : Nat
deriving DecidableEq, Repr

/-- A zeroed node, the content of freshly allocated buffer slots. -/
def zeroNode : U8Node := ⟨[0, 0, 0, 0], 0, 0⟩

/-- Read a node register (`U8Node::get_register`). -/
def U8Node.getRegister (n : U8Node) (r : Register) : Nat :=
  n.registers.getD r.idx 0

/-- Write a node register (`U8Node::set_register`); the stored value is a
`u8`, hence the `% 256`. -/
def U8Node.setRegister (n : U8Node) (r : Register) (v : Nat) : U8Node :=
  { n with registers := n.registers.set r.idx (v % 256) }

/-- Reset a node (`U8Node::initialize`). -/
def U8Node.initNode (_n : U8Node) (key value : Nat) : U8Node :=
  ⟨[SENTINEL, SENTINEL, 0, 0], key, value⟩

/-- The allocator header (`U8Allocator` in the source): eight `u8`s, of
which `[0]` root, `[1]` size, `[2]` capacity, `[3]` free_list_head,
`[4]` sequence, `[5-7]` padding. -/
structure U8Allocator where
  fields : List Nat
deriving DecidableEq, Repr

/-- Read an allocator field (`U8Allocator::get_field`). -/
def U8Allocator.getField (a : U8Allocator) (f : AField) : Nat :=
  a.fields.getD f.idx 0

/-- Write an allocator field (`U8Allocator::set_field`); stored as `u8`. -/
def U8Allocator.setField (a : U8Allocator) (f : AField) (v : Nat) : U8Allocator :=
  ⟨a.fields.set f.idx (v % 256)⟩

/-- Header produced by `U8Allocator::initialize(capacity)`:
`[SENTINEL, 0, capacity, 1, 1, 0, 0, 0]`. -/
def U8Allocator.initAlloc (_a : U8Allocator) (capacity : Nat) : U8Allocator :=
  ⟨[SENTINEL, 0, capacity % 256, 1, 1, 0, 0, 0]⟩

/-- The writable tree view: allocator header plus node array
(`U8AVLTreeMut` in the source). -/
structure TreeState where
  allocator : U8Allocator
  nodes : List U8Node
deriving DecidableEq, Repr

/-- The `node!(array, index)` macro: 1-based access, the index arithmetic
`index - 1` performed on `u8` (so index 0 wraps to 255).  Out-of-range
reads (a panic in Rust) yield a zeroed node. -/
def getNodeL (ns : List U8Node) (i : Nat) : U8Node :=
  ns.getD ((i + 255) % 256) zeroNode

/-- In-place update through the `node!` macro.  Out-of-range writes (a
panic in Rust) are dropped. -/
def modifyNode (ns : List U8Node) (i : Nat) (f : U8Node → U8Node) : List U8Node :=
  ns.set ((i + 255) % 256) (f (getNodeL ns i))

/-- Read an allocator field of a tree state. -/
def TreeState.getF (s : TreeState) (f : AField) : Nat := s.allocator.getField f

/-- Write an allocator field of a tree state. -/
def TreeState.setF (s : TreeState) (f : AField) (v : Nat) : TreeState :=
  { s with allocator := s.allocator.setField f v }

/-- Apply a node update inside a tree state. -/
def TreeState.modNode (s : TreeState) (i : Nat) (f : U8Node → U8Node) : TreeState :=
  { s with nodes := modifyNode s.nodes i f }

/-- `capacity()` of the readonly interface. -/
def TreeState.capacity (s : TreeState) : Nat := s.getF .capacity

/-- `len()` of the readonly interface. -/
def TreeState.len (s : TreeState) : Nat := s.getF .size

/-- `is_full()` of the readonly interface. -/
def TreeState.isFull (s : TreeState) : Bool := s.getF .capacity ≤ s.getF .size

/-- `is_empty()` of the readonly interface. -/
def TreeState.isEmpty (s : TreeState) : Bool := s.getF .size == 0

/-- Descent loop of `find`: follow `left`/`right` registers comparing
keys; fuel bounds the iteration count (Rust loops unboundedly, but every
well-formed tree is left within `nodes.length` steps). -/
def findLoop (s : TreeState) (key : Nat) (node : Nat) : Nat → Option (Option Nat)
  | 0 => none
  | fuel + 1 =>
    if node = SENTINEL then some none
    else
      let current := (getNodeL s.nodes node).key
      if key < current then findLoop s key ((getNodeL s.nodes node).getRegister .left) fuel
      else if current < key then findLoop s key ((getNodeL s.nodes node).getRegister .right) fuel
      else some (some node)

/-- `find(key)`: index of the node holding `key`, if any.  The outer
`Option` marks divergence (never on a well-formed tree). -/
def TreeState.find (s : TreeState) (key : Nat) : Option (Option Nat) :=
  findLoop s key (s.getF .root) (s.nodes.length + 1)

/-- `get(key)`: the value stored under `key`, if any. -/
def TreeState.get (s : TreeState) (key : Nat) : Option (Option Nat) :=
  (s.find key).map (fun r => r.map (fun i => (getNodeL s.nodes i).value))

/-- `contains(key)`. -/
def TreeState.contains (s : TreeState) (key : Nat) : Option Bool :=
  (s.find key).map Option.isSome

/-- Loop of `lowest()`: descend via left children. -/
def lowestLoop (s : TreeState) (node : Nat) : Nat → Option Nat
  | 0 => none
  | fuel + 1 =>
    if (getNodeL s.nodes node).getRegister .left ≠ SENTINEL then
      lowestLoop s ((getNodeL s.nodes node).getRegister .left) fuel
    else some node

/-- `lowest()`: the minimum key, if the tree is nonempty.  The outer
`Option` marks divergence. -/
def TreeState.lowest (s : TreeState) : Option (Option Nat) :=
  let node := s.getF .root
  if node = SENTINEL then some none
  else (lowestLoop s node (s.nodes.length + 1)).map (fun i => some (getNodeL s.nodes i).key)

/-- `initialize(capacity)` on the mutable view. -/
def TreeState.initTree (s : TreeState) (capacity : Nat) : TreeState :=
  { s with allocator := s.allocator.initAlloc capacity }

/-- The height value computed by `update_height(index)` from the
children's cached heights. -/
def heightCalc (s : TreeState) (index : Nat) : Nat :=
  let left := (getNodeL s.nodes index).getRegister .left
  let right := (getNodeL s.nodes index).getRegister .right
  if left = SENTINEL ∧ right = SENTINEL then 0
  else
    let leftHeight := if left ≠ SENTINEL then (getNodeL s.nodes left).getRegister .height else 0
    let rightHeight := if right ≠ SENTINEL then (getNodeL s.nodes right).getRegister .height else 0
    max leftHeight rightHeight + 1

/-- `update_height(index)`: recompute the cached height of a node from
its children's cached heights. -/
def TreeState.updateHeight (s : TreeState) (index : Nat) : TreeState :=
  s.modNode index (fun n => n.setRegister .height (heightCalc s index))

/-- `update_child(parent, branch, child)`: set the child register and
refresh the parent's height.  The source panics on `branch = Height`;
that arm is unreachable (paths only ever record `Left`/`Right`) and is
modelled as the identity write. -/
def TreeState.updateChild (s : TreeState) (parent : Nat) (branch : Register) (child : Nat) :
    TreeState :=
  let s1 :=
    match branch with
    | .left => s.modNode parent (fun n => n.setRegister .left child)
    | .right => s.modNode parent (fun n => n.setRegister .right child)
    | .height => s
  s1.updateHeight parent

/-- `balance_factor(left, right)`: difference of the children's cached
heights, computed in `i8`. -/
def TreeState.balanceFactor (s : TreeState) (left right : Nat) : Int :=
  let leftHeight : Int :=
    if left ≠ SENTINEL then i8wrap (i8ofU8 ((getNodeL s.nodes left).getRegister .height) + 1)
    else 0
  let rightHeight : Int :=
    if right ≠ SENTINEL then i8wrap (i8ofU8 ((getNodeL s.nodes right).getRegister .height) + 1)
    else 0
  i8wrap (leftHeight - rightHeight)

/-- `left_rotate(index)`: the right child becomes the subtree root;
returns the new subtree root. -/
def TreeState.leftRotate (s : TreeState) (index : Nat) : Nat × TreeState :=
  let right := (getNodeL s.nodes index).getRegister .right
  let rightLeft := (getNodeL s.nodes right).getRegister .left
  let s1 := s.updateChild index .right rightLeft
  let s2 := s1.updateChild right .left index
  (right, s2)

/-- `right_rotate(index)`: the left child becomes the subtree root;
returns the new subtree root. -/
def TreeState.rightRotate (s : TreeState) (index : Nat) : Nat × TreeState :=
  let left := (getNodeL s.nodes index).getRegister .left
  let leftRight := (getNodeL s.nodes left).getRegister .right
  let s1 := s.updateChild index .left leftRight
  let s2 := s1.updateChild left .right index
  (left, s2)

/-- Core of one `rebalance` iteration: the rotation decision at `child`,
returning the new subtree root when a rotation happened. -/
def rebalanceCore (s : TreeState) (child : Nat) : Option Nat × TreeState :=
  let left := (getNodeL s.nodes child).getRegister .left
  let right := (getNodeL s.nodes child).getRegister .right
  let bf := s.balanceFactor left right
  if 1 < bf then
    let leftLeft := (getNodeL s.nodes left).getRegister .left
    let leftRight := (getNodeL s.nodes left).getRegister .right
    let leftBf := s.balanceFactor leftLeft leftRight
    let s1 :=
      if leftBf < 0 then
        let (index, sr) := s.leftRotate left
        sr.updateChild child .left index
      else s
    let (index, s2) := s1.rightRotate child
    (some index, s2)
  else if bf < -1 then
    let rightLeft := (getNodeL s.nodes right).getRegister .left
    let rightRight := (getNodeL s.nodes right).getRegister .right
    let rightBf := s.balanceFactor rightLeft rightRight
    let s1 :=
      if 0 < rightBf then
        let (index, sr) := s.rightRotate right
        sr.updateChild child .right index
      else s
    let (index, s2) := s1.leftRotate child
    (some index, s2)
  else (none, s.updateHeight child)

/-- One iteration of the `rebalance` loop, processing a path entry. -/
def rebalanceStep (s : TreeState) (e : Ancestor) : TreeState :=
  let (parent, branch, child) := e
  match rebalanceCore s child with
  | (some index, s2) =>
    match parent with
    | some p => s2.updateChild p (branch.getD .left) index
    | none => ((s2.setF .root index).updateHeight index)
  | (none, s2) => s2

/-- `rebalance(path)`: visit the recorded path in reverse order. -/
def TreeState.rebalance (s : TreeState) (path : List Ancestor) : TreeState :=
  path.reverse.foldl rebalanceStep s

/-- `add(key, value)`: pop a slot from the free list, or bump `sequence`
when the free list is empty; `none` is the source's `panic!("tree is
full")`. -/
def TreeState.add (s : TreeState) (key value : Nat) : Option (Nat × TreeState) :=
  let freeNode := s.getF .freeListHead
  let sequence := s.getF .sequence
  let afterAlloc : Option TreeState :=
    if freeNode = sequence then
      if u8sub sequence 1 = s.getF .capacity then none
      else
        some ((s.setF .sequence (sequence + 1)).setF .freeListHead (sequence + 1))
    else
      some (s.setF .freeListHead ((getNodeL s.nodes freeNode).getRegister .height))
  afterAlloc.map (fun s1 =>
    let s2 := s1.modNode freeNode
      (fun n => ({ n with key := key, value := value }).setRegister .height 0)
    let s3 := s2.setF .size (s2.getF .size + 1)
    (freeNode, s3))

/-- Descent loop of `insert`: record the path, stop at a duplicate key
(`some (none, s)`, state untouched) or at a `SENTINEL` child where the
new node is attached and the path rebalanced. -/
def insertLoop (s : TreeState) (key value : Nat) (path : List Ancestor) (ref : Nat) :
    Nat → Option (Option Nat × TreeState)
  | 0 => none
  | fuel + 1 =>
    let currentKey := (getNodeL s.nodes ref).key
    let parent := ref
    if key = currentKey then some (none, s)
    else
      let branch : Register := if key < currentKey then .left else .right
      let child := (getNodeL s.nodes parent).getRegister branch
      if child = SENTINEL then
        if s.isFull then some (none, s)
        else
          (s.add key value).map (fun (newNode, s1) =>
            let s2 := s1.updateChild parent branch newNode
            (some newNode, s2.rebalance path))
      else insertLoop s key value (path ++ [(some parent, some branch, child)]) child fuel

/-- `insert(key, value)`: `some (some i, s)` on success, `some (none, s)`
on duplicate key or full tree, `none` on the source's panic (`add` called
with root `SENTINEL` on a zero-capacity allocator) or divergence. -/
def TreeState.insert (s : TreeState) (key value : Nat) : Option (Option Nat × TreeState) :=
  let referenceNode := s.getF .root
  if referenceNode = SENTINEL then
    (s.add key value).map (fun (root, s1) => (some root, s1.setF .root root))
  else
    insertLoop s key value [(none, none, referenceNode)] referenceNode (s.nodes.length + 1)

/-- `remove_node(index)`: clear a node, push it on the free list,
decrement `size`, return its former value. -/
def TreeState.removeNode (s : TreeState) (index : Nat) : Option Nat × TreeState :=
  if index = SENTINEL then (none, s)
  else
    let value := (getNodeL s.nodes index).value
    let s1 := s.modNode index (fun n => n.initNode 0 0)
    let freeListHead := s1.getF .freeListHead
    let s2 := s1.modNode index (fun n => n.setRegister .height freeListHead)
    let s3 := s2.setF .freeListHead index
    let s4 := s3.setF .size (u8sub (s3.getF .size) 1)
    (some value, s4)

/-- Descent loop of `remove`: record the path (including, on a miss, the
final `SENTINEL` entry, exactly as the source's unconditional push does)
and return the index of the matching node, `SENTINEL` if absent. -/
def removeLoop (s : TreeState) (key : Nat) (path : List Ancestor) (node : Nat) :
    Nat → Option (List Ancestor × Nat)
  | 0 => none
  | fuel + 1 =>
    if node = SENTINEL then some (path, node)
    else
      let currentKey := (getNodeL s.nodes node).key
      if key = currentKey then some (path, node)
      else
        let branch : Register := if key < currentKey then .left else .right
        let child := (getNodeL s.nodes node).getRegister branch
        removeLoop s key (path ++ [(some node, some branch, child)]) child fuel

/-- Loop locating the in-order successor (leftmost descendant of the
right subtree) while recording the inner path. -/
def leftmostLoop (s : TreeState) (leftmostParent leftmost : Nat) (innerPath : List Ancestor) :
    Nat → Option (Nat × Nat × List Ancestor)
  | 0 => none
  | fuel + 1 =>
    if (getNodeL s.nodes leftmost).getRegister .left ≠ SENTINEL then
      let p := leftmost
      let l := (getNodeL s.nodes leftmost).getRegister .left
      leftmostLoop s p l (innerPath ++ [(some p, some .left, l)]) fuel
    else some (leftmostParent, leftmost, innerPath)

/-- `remove(key)`: `some (some v, s)` when `key` was present, `some
(none, s)` when absent, `none` on divergence (never on a well-formed
tree). -/
def TreeState.remove (s : TreeState) (key : Nat) : Option (Option Nat × TreeState) :=
  let rootIdx := s.getF .root
  if rootIdx = SENTINEL then some (none, s)
  else
    match removeLoop s key [(none, none, rootIdx)] rootIdx (s.nodes.length + 1) with
    | none => none
    | some (path, nodeIndex) =>
      if nodeIndex = SENTINEL then some (none, s)
      else
        let left := (getNodeL s.nodes nodeIndex).getRegister .left
        let right := (getNodeL s.nodes nodeIndex).getRegister .right
        let spliced : Option (Nat × List Ancestor × TreeState) :=
          if left ≠ SENTINEL ∧ right ≠ SENTINEL then
            match leftmostLoop s SENTINEL right [] (s.nodes.length + 1) with
            | none => none
            | some (leftmostParent, leftmost, innerPath) =>
              let s1 :=
                if leftmostParent ≠ SENTINEL then
                  s.updateChild leftmostParent .left
                    ((getNodeL s.nodes leftmost).getRegister .right)
                else s
              let s2 := s1.updateChild leftmost .left left
              let s3 := if right ≠ leftmost then s2.updateChild leftmost .right right else s2
              match path.getLast? with
              | none => none
              | some (parent, branch, _) =>
                let path1 := path.dropLast
                let s4 :=
                  match parent with
                  | some p => s3.updateChild p (branch.getD .left) leftmost
                  | none => s3
                let path2 := path1 ++ [(parent, branch, leftmost)]
                let path3 :=
                  if right ≠ leftmost then path2 ++ [(some leftmost, some .right, right)]
                  else path2
                let innerPath1 := if innerPath ≠ [] then innerPath.dropLast else innerPath
                some (leftmost, path3 ++ innerPath1, s4)
          else
            let child :=
              if left = SENTINEL ∧ right = SENTINEL then SENTINEL
              else if left ≠ SENTINEL then left
              else right
            match path.getLast? with
            | none => none
            | some (parent, branch, _) =>
              let path1 := path.dropLast
              match parent with
              | some p =>
                let s1 := s.updateChild p (branch.getD .left) child
                let path2 := if child ≠ SENTINEL then path1 ++ [(some p, branch, child)] else path1
                some (child, path2, s1)
              | none => some (child, path1, s)
        match spliced with
        | none => none
        | some (replacement, finalPath, sf) =>
          let sr :=
            if nodeIndex = sf.getF .root then sf.setF .root replacement
            else sf
          let sb := sr.rebalance finalPath
          some (sb.removeNode nodeIndex)

/-- Body of the `from_bytes_mut` loop threading one surplus slot onto
the free list. -/
def threadStep (s : TreeState) (i : Nat) : TreeState :=
  let index := i + 1
  let freeListHead := s.getF .freeListHead
  let s1 := s.modNode index (fun n => n.setRegister .height freeListHead)
  s1.setF .freeListHead index

/-- Loop of `from_bytes_mut` threading surplus slots onto the free list
(`for i in current..nodes.len() as u8`). -/
def threadLoop (s : TreeState) (start stop : Nat) : TreeState :=
  (List.range' start (stop - start)).foldl threadStep s

/-- Growth absorption performed by `U8AVLTreeMut::from_bytes_mut`: when
the node array outgrows the recorded capacity, raise the capacity (the
`as u8` cast truncating the length) and, when the free list is nonempty,
thread the surplus slots onto it and advance `sequence`. -/
def fromBytesMut (s : TreeState) : TreeState :=
  let current := s.getF .capacity
  if current < s.nodes.length then
    let s1 := s.setF .capacity (s.nodes.length % 256)
    let sequence := s1.getF .sequence
    let freeListHead := s1.getF .freeListHead
    if sequence ≠ freeListHead then
      let s2 := threadLoop s1 current (s.nodes.length % 256)
      s2.setF .sequence (s.nodes.length % 256 + 1)
    else s1
  else s

/-- The readonly view `U8AVLTree::from_bytes` splits the buffer and casts
it without writing anything: the resulting view is the buffer itself. -/
def fromBytes (s : TreeState) : TreeState := s

/-- A zeroed buffer able to hold `n` nodes, as produced by
`[0u8; data_len(n)]`. -/
def zeroedBuffer (n : Nat) : TreeState :=
  ⟨⟨[0, 0, 0, 0, 0, 0, 0, 0]⟩, List.replicate n zeroNode⟩

/-- The state after `initialize(c)` on a zeroed buffer sized for `c`
nodes (`data_len(c)`). -/
def initState (c : Nat) : TreeState := (zeroedBuffer c).initTree c

/-- Run a sequence of inserts, each key mapped to itself as value;
`none` once any insert panics. -/
def runInserts (s : Option TreeState) (ks : List Nat) : Option TreeState :=
  ks.foldl (fun acc k => acc.bind (fun st => (st.insert k k).map Prod.snd)) s

/-- Enlarge the backing buffer by `m` zeroed node slots and rebuild the
mutable view, triggering growth absorption. -/
def growBy (s : TreeState) (m : Nat) : TreeState :=
  fromBytesMut ⟨s.allocator, s.nodes ++ List.replicate m zeroNode⟩

/-- Concrete scenario state: capacity 10, keys 0..9 inserted with value
equal to key. -/
def c8Filled : Option TreeState := runInserts (some (initState 10)) (List.range 10)

/-- Scenario state after additionally removing key 0. -/
def c8AfterRemove : Option TreeState := c8Filled.bind (fun s => (s.remove 0).map Prod.snd)

/-- Scenario state after additionally re-inserting key 10 with value 0. -/
def c8Final : Option TreeState := c8AfterRemove.bind (fun s => (s.insert 10 0).map Prod.snd)

/-- Growth-defect trace, step 1: capacity 10 with keys 1..5. -/
def c5Base : Option TreeState := runInserts (some (initState 10)) [1, 2, 3, 4, 5]

/-- Growth-defect trace, step 2: keys 1 and 2 removed (free list now
holds two slots while slots 6..10 were never handed out). -/
def c5Shrunk : Option TreeState :=
  (c5Base.bind (fun s => (s.remove 1).map Prod.snd)).bind (fun s => (s.remove 2).map Prod.snd)

/-- Growth-defect trace, step 3: the backing buffer is enlarged to 12
node slots and the mutable view is rebuilt. -/
def c5Grown : Option TreeState := c5Shrunk.map (fun s => growBy s 2)

/-- Growth-defect trace, step 4: five further inserts of fresh keys
drain the free list past its stale terminal marker. -/
def c5Final : Option TreeState := runInserts c5Grown [6, 7, 8, 9, 10]

/-- A tree filled to its capacity 10 with keys 1..10. -/
def c6Full : Option TreeState :=
  runInserts (some (initState 10)) ((List.range 10).map (· + 1))

/-- The filled tree re-viewed over a buffer sized for 256 nodes. -/
def c6Big : Option TreeState := c6Full.map (fun s => growBy s 246)

/-- The filled capacity-10 tree re-viewed over a buffer sized for 13
nodes (the claimed `C + M` scenario with `C = 10`, `M = 3`). -/
def c6Grown : Option TreeState := c6Full.map (fun s => growBy s 3)

/-- Three further inserts of fresh keys on the grown view. -/
def c6More : Option TreeState := runInserts c6Grown [11, 12, 13]

/-! ## Abstract trees

The flat node array is related to algebraic binary trees carrying the
slot index, key and value of each node; the cached height registers are
deliberately not part of the abstraction (the search structure does not
depend on them). -/

/-- Algebraic view of the tree stored in the node array. -/
inductive ATree where
  | leaf
  | node (idx key val : Nat) (l r : ATree)
deriving DecidableEq, Repr

/-- Index of the subtree root, `SENTINEL` for an empty subtree. -/
def ATree.rootIdx : ATree → Nat
  | .leaf => 0
  | .node i _ _ _ _ => i

/-- Slot indices of a tree, preorder. -/
def ATree.idxs : ATree → List Nat
  | .leaf => []
  | .node i _ _ l r => i :: (l.idxs ++ r.idxs)

/-- Keys of a tree, inorder. -/
def ATree.keys : ATree → List Nat
  | .leaf => []
  | .node _ k _ l r => l.keys ++ k :: r.keys

/-- Number of nodes. -/
def ATree.count : ATree → Nat
  | .leaf => 0
  | .node _ _ _ l r => l.count + r.count + 1

/-- Number of nodes on the longest root-to-leaf path. -/
def ATree.depth1 : ATree → Nat
  | .leaf => 0
  | .node _ _ _ l r => max l.depth1 r.depth1 + 1

/-- Search-tree property within an open interval: every key lies
strictly between the bounds and the children nest recursively. -/
def ATree.bstB : Option Nat → Option Nat → ATree → Prop
  | _, _, .leaf => True
  | lo, hi, .node _ k _ l r =>
    (∀ b, lo = some b → b < k) ∧ (∀ b, hi = some b → k < b) ∧
      ATree.bstB lo (some k) l ∧ ATree.bstB (some k) hi r

/-- The value stored under a key (leftmost match under `bstB` there is
at most one). -/
def ATree.lookup : ATree → Nat → Option (Nat × Nat)
  | .leaf, _ => none
  | .node i k v l r, key =>
    if key < k then l.lookup key else if k < key then r.lookup key else some (i, v)

/-- `ns` stores the tree `t` with root slot `i`: slot data matches the
node fields and the child registers address the subtrees.  Height
registers are unconstrained. -/
inductive RepTree (ns : List U8Node) : Nat → ATree → Prop where
  | leaf : RepTree ns 0 .leaf
  | node {i k v : Nat} {l r : ATree} :
      i ≠ 0 → i ≤ ns.length →
      (getNodeL ns i).key = k → (getNodeL ns i).value = v →
      RepTree ns ((getNodeL ns i).getRegister .left) l →
      RepTree ns ((getNodeL ns i).getRegister .right) r →
      RepTree ns i (.node i k v l r)

/-- The branch opposite to `b` (only `left`/`right` are ever used). -/
def Register.other : Register → Register
  | .left => .right
  | .right => .left
  | .height => .height

/-- One ancestor level of a context: the branch taken, the ancestor's
slot index, key and value, and its other (untouched) subtree. -/
structure CtxE where
  branch : Register
  idx : Nat
  key : Nat
  val : Nat
  sib : ATree
deriving Repr

/-- Reassemble one ancestor level around a subtree. -/
def CtxE.assemble (z : CtxE) (t : ATree) : ATree :=
  match z.branch with
  | .left => .node z.idx z.key z.val t z.sib
  | .right => .node z.idx z.key z.val z.sib t
  | .height => t

/-- Plug a subtree into a context (innermost level first). -/
def plugI : List CtxE → ATree → ATree
  | [], t => t
  | z :: zs, t => plugI zs (z.assemble t)

/-- `ns` stores the ancestor chain `zs` (innermost parent first) from
slot `root` down to the hole at slot `c`: each level's slot data
matches, its `other`-branch register stores the sibling and its `branch`
register addresses the level below. -/
inductive RepCtxI (ns : List U8Node) (root : Nat) : List CtxE → Nat → Prop where
  | nil : RepCtxI ns root [] root
  | cons {i k v : Nat} {b : Register} {sib : ATree} {zs : List CtxE} {c : Nat} :
      i ≠ 0 → i ≤ ns.length → (b = .left ∨ b = .right) →
      (getNodeL ns i).key = k → (getNodeL ns i).value = v →
      RepTree ns ((getNodeL ns i).getRegister b.other) sib →
      (getNodeL ns i).getRegister b = c →
      RepCtxI ns root zs i →
      RepCtxI ns root (⟨b, i, k, v, sib⟩ :: zs) c

/-- Slot indices mentioned by a context. -/
def ctxIdxs : List CtxE → List Nat
  | [] => []
  | z :: zs => z.idx :: (z.sib.idxs ++ ctxIdxs zs)

/-- Key-value pairs of a tree, inorder. -/
def ATree.kvs : ATree → List (Nat × Nat)
  | .leaf => []
  | .node _ k v l r => l.kvs ++ (k, v) :: r.kvs

/-- Cached-height accuracy: every height register inside the tree holds
the larger child depth. -/
def hAcc (ns : List U8Node) : ATree → Prop
  | .leaf => True
  | .node i _ _ l r =>
    (getNodeL ns i).getRegister .height = max l.depth1 r.depth1 ∧ hAcc ns l ∧ hAcc ns r

/-- The AVL balance property (on true depths). -/
def ATree.AVL : ATree → Prop
  | .leaf => True
  | .node _ _ _ l r =>
    max l.depth1 r.depth1 ≤ min l.depth1 r.depth1 + 1 ∧ l.AVL ∧ r.AVL

/-- The rebalance path corresponding to a context (innermost first) with
the hole at slot `c`: the source records `(None, None, root)` first and
one `(Some parent, Some branch, child)` entry per level. -/
def pathFor : List CtxE → Nat → List Ancestor
  | [], c => [(none, none, c)]
  | z :: zs, c => pathFor zs z.idx ++ [(some z.idx, some z.branch, c)]

/-- Ghost bookkeeping for rebalancing after a mutation: `olds` lists, per
context level (innermost first), the pre-mutation depth of the subtree
rooted at that level, and `c` is the pre-mutation depth of the subtree
that stood at the hole.  Each level's sibling is accurately cached and
AVL, and the pre-mutation tree was balanced at each level. -/
def CtxBal (ns : List U8Node) : List CtxE → List Nat → Nat → Prop
  | [], [], _ => True
  | z :: zs, p :: olds, c =>
    hAcc ns z.sib ∧ z.sib.AVL ∧ max c z.sib.depth1 + 1 = p ∧
      c ≤ z.sib.depth1 + 1 ∧ z.sib.depth1 ≤ c + 1 ∧ CtxBal ns zs olds p
  | _, _, _ => False

/-- Well-formedness of a node array: at most 255 slots (a `u8` index
addresses every slot) and four registers per node. -/
def NodesOk (ns : List U8Node) : Prop :=
  ns.length ≤ 255 ∧ ∀ n ∈ ns, n.registers.length = 4

/-- Common post-state facts of a subtree-local restructuring: the new
subtree `sub'` is represented and accurately cached, carries the same
inorder key-value sequence and a permutation of the slot set of `sub`,
and nothing outside `sub` changed (nodes or allocator). -/
structure RotOut (s : TreeState) (sub : ATree) (sub' : ATree) (s' : TreeState) : Prop where
  rep : RepTree s'.nodes sub'.rootIdx sub'
  hacc : hAcc s'.nodes sub'
  kvs : sub'.kvs = sub.kvs
  perm : sub'.idxs.Perm sub.idxs
  frame : ∀ j, 1 ≤ j → j ≤ 255 → j ∉ sub.idxs → getNodeL s'.nodes j = getNodeL s.nodes j
  len : s'.nodes.length = s.nodes.length
  alloc : s'.allocator = s.allocator
  nok : NodesOk s'.nodes

/-- Minimum node count of an AVL tree of the given depth. -/
def minAVL : Nat → Nat
  | 0 => 0
  | 1 => 1
  | d + 2 => minAVL (d + 1) + minAVL d + 1

/-- The free list embedded in the node array: from a head slot, each
slot's height register names the next slot, until the stored `sequence`
value terminates the chain.  The list collects the chain's slots. -/
inductive FreeList (ns : List U8Node) (seq : Nat) : Nat → List Nat → Prop where
  | nil : FreeList ns seq seq []
  | cons {h next : Nat} {l : List Nat} :
      h ≠ seq → 1 ≤ h → h ≤ ns.length →
      (getNodeL ns h).getRegister .height = next →
      FreeList ns seq next l →
      FreeList ns seq h (h :: l)

/-- Well-formedness of a mutable tree state, tying the allocator header
to the stored tree: the root field addresses a represented, accurately
height-cached, AVL-balanced search tree; `size` counts its nodes;
`capacity` equals the node-array length; a virtual sequence `vseq`
(stored modulo 256) separates the handed-out slots `[1, vseq)` from the
virgin ones; the free list and the live slots partition the handed-out
slots; and every non-live slot has clear child registers. -/
def TreeInv (s : TreeState) : Prop :=
  ∃ T fl vseq,
    s.allocator.fields.length = 8 ∧
    NodesOk s.nodes ∧
    s.getF .capacity = s.nodes.length ∧
    s.getF .root = T.rootIdx ∧
    RepTree s.nodes T.rootIdx T ∧
    hAcc s.nodes T ∧ T.AVL ∧ T.bstB none none ∧
    s.getF .size = T.count ∧
    1 ≤ vseq ∧ vseq ≤ s.nodes.length + 1 ∧
    s.getF .sequence = vseq % 256 ∧
    FreeList s.nodes (vseq % 256) (s.getF .freeListHead) fl ∧
    (T.idxs ++ fl).Perm (List.range' 1 (vseq - 1)) ∧
    (∀ j, 1 ≤ j → j ≤ s.nodes.length → j ∉ T.idxs →
      (getNodeL s.nodes j).getRegister .left = 0 ∧
      (getNodeL s.nodes j).getRegister .right = 0)

/-- States reachable through the mutating interface alone: `initialize`
on a zeroed buffer and non-panicking `insert`/`remove` calls with `u8`
keys and values. -/
inductive Reachable : TreeState → Prop where
  | init {c : Nat} : c ≤ 255 → Reachable (initState c)
  | insert {s s' : TreeState} {k v : Nat} {r : Option Nat} :
      Reachable s → k ≤ 255 → v ≤ 255 → s.insert k v = some (r, s') → Reachable s'
  | remove {s s' : TreeState} {k : Nat} {r : Option Nat} :
      Reachable s → k ≤ 255 → s.remove k = some (r, s') → Reachable s'

/-! ## Theorems -/

set_option maxRecDepth 100000

/-- C3. The claim "insert returns absent exactly when the key is present
or the tree is full" fails on the code: on a tree whose root is
`SENTINEL`, `insert` calls `add` without checking `is_full`, so on a
zero-capacity tree (which is full and holds no key) `add` hits its
`panic!("tree is full")` instead of returning `None`.  The model returns
`none` (panic) where the claim requires the absent result. -/
theorem c3_insert_contract_code_bug :
    (initState 0).isFull = true ∧ (initState 0).insert 5 7 = none := ⟨rfl, rfl⟩

/-- C4. The claim explicitly includes the empty tree initialized with
capacity 0; inserting into it panics (`add` reached through the
empty-root branch of `insert`, which lacks the `is_full` guard present
on the other branch) instead of returning absent with the state
unchanged. -/
theorem c4_full_insert_code_bug :
    (initState 0).len = (initState 0).capacity ∧ (initState 0).insert 9 9 = none := ⟨rfl, rfl⟩

/-- C5. The allocator-header invariant fails on a reachable state: after
`initialize(10)`, inserting keys 1..5, removing 1 and 2, growing the
buffer to 12 node slots (threading the two surplus slots but leaving the
old free chain terminated at the stale sequence value 6 and the five
never-allocated slots 6..10 orphaned), five inserts of fresh keys drain
the free list to `free_list_head = 0`, violating
`free_list_head ∈ [1, capacity+1]` while `len = 8 < capacity = 12`; the
next insert would dereference `node!(nodes, 0)` (a `u8` wrap to index
255, out of bounds — a panic in Rust). -/
theorem c5_allocator_invariant_code_bug :
    c5Final.map (fun s => (s.getF .freeListHead, s.len, s.capacity)) = some (0, 8, 12) := rfl

/-- C8. The concrete scenario: after `initialize(10)` and inserting keys
0..9 (value = key), `len() = 10` and `is_full()`; `insert(10,0)` is
absent; `remove(0)` returns `Some 0`; a second `insert(10,0)` succeeds;
the tree is full again; and `lowest()` returns `Some 1`. -/
theorem c8_concrete_scenario :
    c8Filled.map (fun s => (s.len, s.isFull)) = some (10, true) ∧
    (c8Filled.bind (fun s => s.insert 10 0)).map Prod.fst = some none ∧
    (c8Filled.bind (fun s => s.remove 0)).map Prod.fst = some (some 0) ∧
    (c8AfterRemove.bind (fun s => s.insert 10 0)).map (fun p => p.fst.isSome) = some true ∧
    c8Final.map TreeState.isFull = some true ∧
    c8Final.bind TreeState.lowest = some (some 1) :=
  ⟨rfl, rfl, rfl, rfl, rfl, rfl⟩

/-- C10. The read-only view construction (`U8AVLTree::from_bytes`) only
splits and casts the buffer: it performs no growth absorption and no
write, so the resulting view is the buffer itself and `capacity()` and
`len()` report the stored header fields unchanged, surplus node slots
being ignored by every read path (which only follows indices at most
`capacity`). -/
theorem c10_readonly_view_frame (s : TreeState) :
    fromBytes s = s ∧ (fromBytes s).capacity = s.allocator.getField .capacity ∧
      (fromBytes s).len = s.allocator.getField .size :=
  ⟨rfl, rfl, rfl⟩

/-- C6 counterexample: a tree filled to capacity `C = 10` re-viewed over
a buffer sized for `C + M = 256` nodes does not report
`capacity() = 256`: the `nodes.len() as u8` cast truncates and the
recorded capacity becomes 0, so the tree reports full and no further
insert succeeds. -/
theorem c6_truncation_counterexample :
    c6Big.map (fun s => (s.capacity, s.isFull)) = some (0, true) := rfl

/-! ### Allocator and state algebra -/

theorem AField.idx_lt_eight (f : AField) : f.idx < 8 := by cases f <;> decide

theorem U8Allocator.getField_setField_same (a : U8Allocator) (f : AField) (v : Nat)
    (h8 : a.fields.length = 8) : (a.setField f v).getField f = v % 256 := by
  unfold U8Allocator.getField U8Allocator.setField
  rw [List.getD_eq_getElem?_getD, List.getElem?_set_eq_of_lt _ (by rw [h8]; exact f.idx_lt_eight)]
  rfl

theorem U8Allocator.getField_setField_ne (a : U8Allocator) (f g : AField) (v : Nat)
    (h : f.idx ≠ g.idx) : (a.setField f v).getField g = a.getField g := by
  unfold U8Allocator.getField U8Allocator.setField
  rw [List.getD_eq_getElem?_getD, List.getElem?_set_ne h, ← List.getD_eq_getElem?_getD]

theorem U8Allocator.setField_setField_same (a : U8Allocator) (f : AField) (v w : Nat) :
    (a.setField f v).setField f w = a.setField f w := by
  unfold U8Allocator.setField
  exact congrArg U8Allocator.mk (List.set_set _ _ _ _)

theorem U8Allocator.setField_setField_comm (a : U8Allocator) (f g : AField) (v w : Nat)
    (h : f.idx ≠ g.idx) : (a.setField f v).setField g w = (a.setField g w).setField f v := by
  unfold U8Allocator.setField
  exact congrArg U8Allocator.mk (List.set_comm _ _ _ h)

theorem U8Allocator.length_setField (a : U8Allocator) (f : AField) (v : Nat) :
    (a.setField f v).fields.length = a.fields.length := List.length_set _ _ _

theorem TreeState.getF_setF_same (s : TreeState) (f : AField) (v : Nat)
    (h8 : s.allocator.fields.length = 8) : (s.setF f v).getF f = v % 256 :=
  s.allocator.getField_setField_same f v h8

theorem TreeState.getF_setF_ne (s : TreeState) (f g : AField) (v : Nat)
    (h : f.idx ≠ g.idx) : (s.setF f v).getF g = s.getF g :=
  s.allocator.getField_setField_ne f g v h

theorem TreeState.setF_setF_same (s : TreeState) (f : AField) (v w : Nat) :
    (s.setF f v).setF f w = s.setF f w := by
  unfold TreeState.setF
  rw [s.allocator.setField_setField_same]

theorem TreeState.setF_setF_comm (s : TreeState) (f g : AField) (v w : Nat)
    (h : f.idx ≠ g.idx) : (s.setF f v).setF g w = (s.setF g w).setF f v := by
  unfold TreeState.setF
  rw [s.allocator.setField_setField_comm f g v w h]

theorem TreeState.nodes_setF (s : TreeState) (f : AField) (v : Nat) :
    (s.setF f v).nodes = s.nodes := rfl

theorem TreeState.getF_modNode (s : TreeState) (i : Nat) (g : U8Node → U8Node) (f : AField) :
    (s.modNode i g).getF f = s.getF f := rfl

theorem TreeState.allocLen_setF (s : TreeState) (f : AField) (v : Nat) :
    (s.setF f v).allocator.fields.length = s.allocator.fields.length :=
  s.allocator.length_setField f v

theorem TreeState.allocLen_modNode (s : TreeState) (i : Nat) (g : U8Node → U8Node) :
    (s.modNode i g).allocator.fields.length = s.allocator.fields.length := rfl

theorem TreeState.nodesLen_modNode (s : TreeState) (i : Nat) (g : U8Node → U8Node) :
    (s.modNode i g).nodes.length = s.nodes.length := List.length_set _ _ _

theorem TreeState.nodesLen_setF (s : TreeState) (f : AField) (v : Nat) :
    (s.setF f v).nodes.length = s.nodes.length := rfl

theorem TreeState.modNode_setF (s : TreeState) (i : Nat) (g : U8Node → U8Node) (f : AField)
    (v : Nat) : (s.setF f v).modNode i g = (s.modNode i g).setF f v := rfl

/-! ### threadStep and threadLoop lemmas -/

theorem threadStep_getF (s : TreeState) (i : Nat) (f : AField)
    (h : AField.freeListHead.idx ≠ f.idx) : (threadStep s i).getF f = s.getF f := by
  unfold threadStep
  rw [TreeState.getF_setF_ne _ _ _ _ h, TreeState.getF_modNode]

theorem threadStep_allocLen (s : TreeState) (i : Nat) :
    (threadStep s i).allocator.fields.length = s.allocator.fields.length := by
  unfold threadStep
  rw [TreeState.allocLen_setF, TreeState.allocLen_modNode]

theorem threadStep_nodesLen (s : TreeState) (i : Nat) :
    (threadStep s i).nodes.length = s.nodes.length := by
  unfold threadStep
  rw [TreeState.nodesLen_setF, TreeState.nodesLen_modNode]

theorem threadStep_setF_comm (s : TreeState) (i : Nat) (f : AField) (v : Nat)
    (h : f.idx ≠ AField.freeListHead.idx) :
    threadStep (s.setF f v) i = (threadStep s i).setF f v := by
  show ((s.setF f v).modNode (i + 1)
      (fun n => n.setRegister .height ((s.setF f v).getF .freeListHead))).setF
        .freeListHead (i + 1) =
    ((s.modNode (i + 1)
      (fun n => n.setRegister .height (s.getF .freeListHead))).setF
        .freeListHead (i + 1)).setF f v
  rw [TreeState.getF_setF_ne _ _ _ _ h, TreeState.modNode_setF,
    TreeState.setF_setF_comm _ _ _ _ _ h]

theorem foldl_threadStep_getF (l : List Nat) (s : TreeState) (f : AField)
    (h : AField.freeListHead.idx ≠ f.idx) :
    (l.foldl threadStep s).getF f = s.getF f := by
  induction l generalizing s with
  | nil => rfl
  | cons a t ih => rw [List.foldl_cons, ih, threadStep_getF _ _ _ h]

theorem foldl_threadStep_allocLen (l : List Nat) (s : TreeState) :
    (l.foldl threadStep s).allocator.fields.length = s.allocator.fields.length := by
  induction l generalizing s with
  | nil => rfl
  | cons a t ih => rw [List.foldl_cons, ih, threadStep_allocLen]

theorem foldl_threadStep_nodesLen (l : List Nat) (s : TreeState) :
    (l.foldl threadStep s).nodes.length = s.nodes.length := by
  induction l generalizing s with
  | nil => rfl
  | cons a t ih => rw [List.foldl_cons, ih, threadStep_nodesLen]

theorem foldl_threadStep_setF_comm (l : List Nat) (s : TreeState) (f : AField) (v : Nat)
    (h : f.idx ≠ AField.freeListHead.idx) :
    l.foldl threadStep (s.setF f v) = (l.foldl threadStep s).setF f v := by
  induction l generalizing s with
  | nil => rfl
  | cons a t ih => rw [List.foldl_cons, threadStep_setF_comm _ _ _ _ h, ih, List.foldl_cons]

theorem threadLoop_getF (s : TreeState) (a b : Nat) (f : AField)
    (h : AField.freeListHead.idx ≠ f.idx) : (threadLoop s a b).getF f = s.getF f :=
  foldl_threadStep_getF _ _ _ h

theorem threadLoop_allocLen (s : TreeState) (a b : Nat) :
    (threadLoop s a b).allocator.fields.length = s.allocator.fields.length :=
  foldl_threadStep_allocLen _ _

theorem threadLoop_nodesLen (s : TreeState) (a b : Nat) :
    (threadLoop s a b).nodes.length = s.nodes.length :=
  foldl_threadStep_nodesLen _ _

theorem threadLoop_setF_comm (s : TreeState) (a b : Nat) (f : AField) (v : Nat)
    (h : f.idx ≠ AField.freeListHead.idx) :
    threadLoop (s.setF f v) a b = (threadLoop s a b).setF f v := by
  unfold threadLoop
  exact foldl_threadStep_setF_comm _ _ _ _ h

/-! ### Characterization of `fromBytesMut` -/

theorem fromBytesMut_stay (s : TreeState) (h : ¬ s.getF .capacity < s.nodes.length) :
    fromBytesMut s = s := by
  unfold fromBytesMut
  rw [if_neg h]

theorem TreeState.seqFlh_setF_capacity (u : TreeState) (v : Nat) :
    ((u.setF .capacity v).getF .sequence = (u.setF .capacity v).getF .freeListHead) ↔
      (u.getF .sequence = u.getF .freeListHead) := by
  rw [TreeState.getF_setF_ne _ _ _ _ (by decide), TreeState.getF_setF_ne _ _ _ _ (by decide)]

theorem fromBytesMut_packed (s : TreeState) (h : s.getF .capacity < s.nodes.length)
    (he : (s.setF .capacity (s.nodes.length % 256)).getF .sequence =
      (s.setF .capacity (s.nodes.length % 256)).getF .freeListHead) :
    fromBytesMut s = s.setF .capacity (s.nodes.length % 256) := by
  unfold fromBytesMut
  rw [if_pos h]
  exact if_neg (by simpa using he)

theorem fromBytesMut_thread (s : TreeState) (h : s.getF .capacity < s.nodes.length)
    (hne : (s.setF .capacity (s.nodes.length % 256)).getF .sequence ≠
      (s.setF .capacity (s.nodes.length % 256)).getF .freeListHead) :
    fromBytesMut s =
      (threadLoop (s.setF .capacity (s.nodes.length % 256)) (s.getF .capacity)
        (s.nodes.length % 256)).setF .sequence (s.nodes.length % 256 + 1) := by
  unfold fromBytesMut
  rw [if_pos h]
  exact if_pos hne

/-- C9. Growth absorption is idempotent: rebuilding the mutable view
over an already-adjusted buffer leaves the header and node array
identical, for every buffer with the 8-byte allocator header
(`from_bytes_mut` always splits exactly 8 header bytes off). -/
theorem c9_growth_absorption_idempotent (s : TreeState)
    (h8 : s.allocator.fields.length = 8) :
    fromBytesMut (fromBytesMut s) = fromBytesMut s := by
  by_cases h1 : s.getF .capacity < s.nodes.length
  · set x := s.nodes.length % 256 with hx
    have hxlt : x < 256 := by omega
    by_cases h2 : (s.setF .capacity x).getF .sequence = (s.setF .capacity x).getF .freeListHead
    · rw [fromBytesMut_packed s h1 h2]
      set t := s.setF .capacity x with ht
      have hcap : t.getF .capacity = x := by
        rw [ht, TreeState.getF_setF_same _ _ _ h8]
        omega
      have hlen : t.nodes.length = s.nodes.length := rfl
      by_cases h3 : 256 ≤ s.nodes.length
      · have h1' : t.getF .capacity < t.nodes.length := by rw [hcap, hlen]; omega
        have h2' : (t.setF .capacity (t.nodes.length % 256)).getF .sequence =
            (t.setF .capacity (t.nodes.length % 256)).getF .freeListHead :=
          (TreeState.seqFlh_setF_capacity t (t.nodes.length % 256)).mpr h2
        rw [fromBytesMut_packed t h1' h2', hlen, ← hx, ht, TreeState.setF_setF_same]
      · have hstay : ¬ t.getF .capacity < t.nodes.length := by rw [hcap, hlen]; omega
        rw [fromBytesMut_stay t hstay]
    · rw [fromBytesMut_thread s h1 h2]
      set T := threadLoop (s.setF .capacity x) (s.getF .capacity) x with hT
      set t := T.setF .sequence (x + 1) with ht
      have hTcap : T.getF .capacity = x := by
        rw [hT, threadLoop_getF _ _ _ _ (by decide), TreeState.getF_setF_same _ _ _ h8]
        omega
      have hcap : t.getF .capacity = x := by
        rw [ht, TreeState.getF_setF_ne _ _ _ _ (by decide), hTcap]
      have hlen : t.nodes.length = s.nodes.length := by
        rw [ht, TreeState.nodesLen_setF, hT, threadLoop_nodesLen, TreeState.nodesLen_setF]
      have hTsetcap : T.setF .capacity x = T := by
        rw [hT, threadLoop_setF_comm _ _ _ _ _ (by decide), TreeState.setF_setF_same]
      by_cases h3 : 256 ≤ s.nodes.length
      · have h1' : t.getF .capacity < t.nodes.length := by rw [hcap, hlen]; omega
        have hx' : t.nodes.length % 256 = x := by rw [hlen]
        by_cases h2' : (t.setF .capacity (t.nodes.length % 256)).getF .sequence =
            (t.setF .capacity (t.nodes.length % 256)).getF .freeListHead
        · rw [fromBytesMut_packed t h1' h2', hx', ht,
            TreeState.setF_setF_comm T .sequence .capacity (x + 1) x (by decide), hTsetcap]
        · rw [fromBytesMut_thread t h1' h2', hx', hcap]
          have hempty : threadLoop (t.setF .capacity x) x x = t.setF .capacity x := by
            unfold threadLoop
            rw [Nat.sub_self]
            rfl
          rw [hempty, ht,
            TreeState.setF_setF_comm T .sequence .capacity (x + 1) x (by decide), hTsetcap,
            TreeState.setF_setF_same]
      · have hstay : ¬ t.getF .capacity < t.nodes.length := by rw [hcap, hlen]; omega
        rw [fromBytesMut_stay t hstay]
  · rw [fromBytesMut_stay s h1, fromBytesMut_stay s h1]

/-- C9 witness: idempotence at a concrete grown buffer (capacity 2
recorded, 5 node slots supplied). -/
theorem c9_growth_absorption_idempotent_witness :
    (TreeState.mk ⟨[0, 0, 2, 1, 1, 0, 0, 0]⟩ (List.replicate 5 zeroNode)).allocator.fields.length
        = 8 ∧
      fromBytesMut (fromBytesMut
          (TreeState.mk ⟨[0, 0, 2, 1, 1, 0, 0, 0]⟩ (List.replicate 5 zeroNode))) =
        fromBytesMut (TreeState.mk ⟨[0, 0, 2, 1, 1, 0, 0, 0]⟩ (List.replicate 5 zeroNode)) :=
  ⟨rfl, c9_growth_absorption_idempotent _ rfl⟩

/-! ### Node and array access lemmas -/

theorem U8Node.getRegister_setRegister_ne (n : U8Node) (r r' : Register) (v : Nat)
    (h : r.idx ≠ r'.idx) : (n.setRegister r v).getRegister r' = n.getRegister r' := by
  unfold U8Node.getRegister U8Node.setRegister
  rw [List.getD_eq_getElem?_getD, List.getElem?_set_ne h, ← List.getD_eq_getElem?_getD]

theorem U8Node.getRegister_setRegister_same (n : U8Node) (r : Register) (v : Nat)
    (h : r.idx < n.registers.length) : (n.setRegister r v).getRegister r = v % 256 := by
  unfold U8Node.getRegister U8Node.setRegister
  rw [List.getD_eq_getElem?_getD, List.getElem?_set_eq_of_lt _ h]
  rfl

theorem U8Node.key_setRegister (n : U8Node) (r : Register) (v : Nat) :
    (n.setRegister r v).key = n.key := rfl

theorem U8Node.value_setRegister (n : U8Node) (r : Register) (v : Nat) :
    (n.setRegister r v).value = n.value := rfl

theorem U8Node.regLen_setRegister (n : U8Node) (r : Register) (v : Nat) :
    (n.setRegister r v).registers.length = n.registers.length := List.length_set _ _ _

theorem nodePos_eq (i : Nat) (h1 : 1 ≤ i) (h2 : i ≤ 256) : (i + 255) % 256 = i - 1 := by
  omega

theorem length_modifyNode (ns : List U8Node) (j : Nat) (f : U8Node → U8Node) :
    (modifyNode ns j f).length = ns.length := List.length_set _ _ _

theorem getNodeL_modifyNode_same (ns : List U8Node) (i : Nat) (f : U8Node → U8Node)
    (h1 : 1 ≤ i) (h2 : i ≤ ns.length) (hL : ns.length ≤ 255) :
    getNodeL (modifyNode ns i f) i = f (getNodeL ns i) := by
  have hg : getNodeL ns i = ns.getD (i - 1) zeroNode := by
    unfold getNodeL
    rw [nodePos_eq i h1 (by omega)]
  unfold getNodeL modifyNode
  rw [nodePos_eq i h1 (by omega), List.getD_eq_getElem?_getD,
    List.getElem?_set_eq_of_lt _ (by omega), Option.getD_some, hg]

theorem getNodeL_modifyNode_ne (ns : List U8Node) (i j : Nat) (f : U8Node → U8Node)
    (hi1 : 1 ≤ i) (hi2 : i ≤ 255) (hj1 : 1 ≤ j) (hj2 : j ≤ 255) (hij : i ≠ j) :
    getNodeL (modifyNode ns j f) i = getNodeL ns i := by
  unfold getNodeL modifyNode
  rw [nodePos_eq i hi1 (by omega), nodePos_eq j hj1 (by omega),
    List.getD_eq_getElem?_getD, List.getElem?_set_ne (by omega), ← List.getD_eq_getElem?_getD]

/-! ### RepTree basics -/

theorem RepTree.rootIdx_eq {ns : List U8Node} {i : Nat} {t : ATree}
    (h : RepTree ns i t) : t.rootIdx = i := by
  cases h with
  | leaf => rfl
  | node => rfl

theorem RepTree.zero_leaf {ns : List U8Node} {t : ATree}
    (h : RepTree ns 0 t) : t = .leaf := by
  cases h with
  | leaf => rfl
  | node hne => exact absurd rfl hne

theorem RepTree.ne_leaf {ns : List U8Node} {i : Nat} {t : ATree}
    (h : RepTree ns i t) (hi : i ≠ 0) : t ≠ .leaf := by
  cases h with
  | leaf => exact absurd rfl hi
  | node => intro hc; cases hc

theorem RepTree.bounds {ns : List U8Node} {i : Nat} {t : ATree}
    (h : RepTree ns i t) : ∀ j ∈ t.idxs, 1 ≤ j ∧ j ≤ ns.length := by
  induction h with
  | leaf => intro j hj; cases hj
  | node hne hle hk hv hl hr ihl ihr =>
    intro j hj
    rcases List.mem_cons.mp hj with hj | hj
    · subst hj; exact ⟨Nat.one_le_iff_ne_zero.mpr hne, hle⟩
    · rcases List.mem_append.mp hj with hj | hj
      · exact ihl j hj
      · exact ihr j hj

/-- Data relevant to `RepTree` at one slot: key, value and the two child
registers (the height register is irrelevant). -/
def nodeData (n : U8Node) : Nat × Nat × Nat × Nat :=
  (n.key, n.value, n.getRegister .left, n.getRegister .right)

theorem RepTree.congr {ns ns' : List U8Node} {i : Nat} {t : ATree}
    (h : RepTree ns i t) (hlen : ns'.length = ns.length)
    (hag : ∀ j ∈ t.idxs, nodeData (getNodeL ns' j) = nodeData (getNodeL ns j)) :
    RepTree ns' i t := by
  induction h with
  | leaf => exact RepTree.leaf
  | node hne hle hk hv hl hr ihl ihr =>
    have hroot := hag _ (List.mem_cons_self _ _)
    have hk' := congrArg (fun p => p.1) hroot
    have hv' := congrArg (fun p => p.2.1) hroot
    have hlreg := congrArg (fun p => p.2.2.1) hroot
    have hrreg := congrArg (fun p => p.2.2.2) hroot
    simp only [nodeData] at hk' hv' hlreg hrreg
    refine RepTree.node hne (hlen ▸ hle) (hk'.trans hk) (hv'.trans hv) ?_ ?_
    · rw [hlreg]
      exact ihl fun j hj => hag j (List.mem_cons_of_mem _ (List.mem_append_left _ hj))
    · rw [hrreg]
      exact ihr fun j hj => hag j (List.mem_cons_of_mem _ (List.mem_append_right _ hj))

theorem RepTree.frame {ns : List U8Node} {i : Nat} {t : ATree}
    (h : RepTree ns i t) (hL : ns.length ≤ 255) {j : Nat} (hj1 : 1 ≤ j) (hj2 : j ≤ 255)
    (hj : j ∉ t.idxs) (f : U8Node → U8Node) :
    RepTree (modifyNode ns j f) i t := by
  refine h.congr (length_modifyNode ns j f) fun m hm => ?_
  have hb := h.bounds m hm
  rw [getNodeL_modifyNode_ne ns m j f hb.1 (by omega) hj1 hj2 (fun hc => hj (hc ▸ hm))]

/-- A write that preserves key, value and child registers preserves
every represented tree, even when the written slot is inside it. -/
theorem RepTree.dataPreserve {ns : List U8Node} {i : Nat} {t : ATree}
    (h : RepTree ns i t) (hL : ns.length ≤ 255) {j : Nat} (hj1 : 1 ≤ j) (hj2 : j ≤ 255)
    (f : U8Node → U8Node) (hf : ∀ n, nodeData (f n) = nodeData n) :
    RepTree (modifyNode ns j f) i t := by
  refine h.congr (length_modifyNode ns j f) fun m hm => ?_
  have hb := h.bounds m hm
  by_cases hmj : m = j
  · subst hmj
    rw [getNodeL_modifyNode_same ns m f hb.1 hb.2 hL, hf]
  · rw [getNodeL_modifyNode_ne ns m j f hb.1 (by omega) hj1 hj2 hmj]

/-! ### Pure tree lemmas -/

theorem ATree.count_eq_idxs_length (t : ATree) : t.count = t.idxs.length := by
  induction t with
  | leaf => rfl
  | node i k v l r ihl ihr =>
    simp only [ATree.count, ATree.idxs, List.length_cons, List.length_append, ihl, ihr]
    try omega


theorem ATree.keys_eq_kvs_map (t : ATree) : t.keys = t.kvs.map Prod.fst := by
  induction t with
  | leaf => rfl
  | node i k v l r ihl ihr =>
    simp only [ATree.keys, ATree.kvs, List.map_append, List.map_cons, ihl, ihr]

theorem minAVL_step (d : Nat) : minAVL d ≤ minAVL (d + 1) := by
  match d with
  | 0 => decide
  | 1 => decide
  | d + 2 =>
    have e2 : minAVL (d + 2 + 1) = minAVL (d + 2) + minAVL (d + 1) + 1 := rfl
    omega

theorem minAVL_mono : ∀ {a b : Nat}, a ≤ b → minAVL a ≤ minAVL b := by
  intro a b hab
  induction b with
  | zero => simp [Nat.le_zero.mp hab]
  | succ b ih =>
    rcases Nat.lt_or_ge a (b + 1) with h | h
    · exact (ih (by omega)).trans (minAVL_step b)
    · have : a = b + 1 := by omega
      subst this
      exact le_rfl

theorem minAVL_le_count {t : ATree} (h : t.AVL) : minAVL t.depth1 ≤ t.count := by
  induction t with
  | leaf => exact Nat.le_refl 0
  | node i k v l r ihl ihr =>
    obtain ⟨hbal, hl, hr⟩ := h
    have il := ihl hl
    have ir := ihr hr
    have hA : l.depth1 ≤ r.depth1 + 1 :=
      (le_max_left _ _).trans (hbal.trans (Nat.add_le_add_right (min_le_right _ _) 1))
    have hB : r.depth1 ≤ l.depth1 + 1 :=
      (le_max_right _ _).trans (hbal.trans (Nat.add_le_add_right (min_le_left _ _) 1))
    show minAVL (max l.depth1 r.depth1 + 1) ≤ l.count + r.count + 1
    rcases Nat.le_total l.depth1 r.depth1 with hd | hd
    · rw [Nat.max_eq_right hd]
      match hrd : r.depth1 with
      | 0 => simp [minAVL]
      | d + 1 =>
        have h1 : minAVL (d + 1) ≤ r.count := by rw [hrd] at ir; exact ir
        have h2 : minAVL d ≤ l.count :=
          (minAVL_mono (show d ≤ l.depth1 by omega)).trans il
        have e : minAVL (d + 1 + 1) = minAVL (d + 1) + minAVL d + 1 := rfl
        omega
    · rw [Nat.max_eq_left hd]
      match hld : l.depth1 with
      | 0 => simp [minAVL]
      | d + 1 =>
        have h1 : minAVL (d + 1) ≤ l.count := by rw [hld] at il; exact il
        have h2 : minAVL d ≤ r.count :=
          (minAVL_mono (show d ≤ r.depth1 by omega)).trans ir
        have e : minAVL (d + 1 + 1) = minAVL (d + 1) + minAVL d + 1 := rfl
        omega

theorem depth_le_of_AVL {t : ATree} (h : t.AVL) (hc : t.count ≤ 255) : t.depth1 ≤ 11 := by
  by_contra hgt
  have h12 : minAVL 12 ≤ minAVL t.depth1 := minAVL_mono (by omega)
  have := minAVL_le_count h
  have hv : minAVL 12 = 376 := by decide
  omega

/-! ### Node write and cache lemmas -/

theorem nodeData_setRegister_height (n : U8Node) (v : Nat) :
    nodeData (n.setRegister .height v) = nodeData n := by
  unfold nodeData
  rw [U8Node.key_setRegister, U8Node.value_setRegister,
    U8Node.getRegister_setRegister_ne _ _ _ _ (by decide),
    U8Node.getRegister_setRegister_ne _ _ _ _ (by decide)]

theorem regLen_getNodeL {ns : List U8Node} (h : NodesOk ns) (i : Nat) :
    (getNodeL ns i).registers.length = 4 := by
  unfold getNodeL
  rcases Nat.lt_or_ge ((i + 255) % 256) ns.length with hlt | hge
  · rw [List.getD_eq_getElem _ _ hlt]
    exact h.2 _ (List.getElem_mem hlt)
  · rw [List.getD_eq_default _ _ hge]
    rfl

theorem nodesOk_modifyNode {ns : List U8Node} (h : NodesOk ns) (j : Nat) (f : U8Node → U8Node)
    (hf : ∀ n, (f n).registers.length = n.registers.length) : NodesOk (modifyNode ns j f) := by
  refine ⟨by rw [length_modifyNode]; exact h.1, fun n hn => ?_⟩
  unfold modifyNode at hn
  rcases List.mem_or_eq_of_mem_set hn with hmem | heq
  · exact h.2 n hmem
  · rw [heq, hf]
    exact regLen_getNodeL h _

theorem hAcc_congr {ns ns' : List U8Node} {t : ATree}
    (h : hAcc ns t)
    (hag : ∀ j ∈ t.idxs, (getNodeL ns' j).getRegister .height =
      (getNodeL ns j).getRegister .height) : hAcc ns' t := by
  induction t with
  | leaf => trivial
  | node i k v l r ihl ihr =>
    obtain ⟨hh, hl, hr⟩ := h
    refine ⟨(hag i (List.mem_cons_self _ _)).trans hh, ?_, ?_⟩
    · exact ihl hl fun j hj => hag j (List.mem_cons_of_mem _ (List.mem_append_left _ hj))
    · exact ihr hr fun j hj => hag j (List.mem_cons_of_mem _ (List.mem_append_right _ hj))

theorem i8ofU8_small {h : Nat} (hle : h ≤ 127) : i8ofU8 h = h := by
  unfold i8ofU8
  rw [if_pos (show h % 256 < 128 by omega)]
  omega

theorem i8wrap_small {z : Int} (h1 : -128 ≤ z) (h2 : z ≤ 127) : i8wrap z = z := by
  unfold i8wrap
  omega

/-- The height register of a nonempty accurately-cached subtree stores
its depth minus one. -/
theorem hreg_of_hAcc {ns : List U8Node} {i k v : Nat} {L R : ATree}
    (hacc : hAcc ns (.node i k v L R)) :
    (getNodeL ns i).getRegister .height = (ATree.node i k v L R).depth1 - 1 := by
  have := hacc.1
  show (getNodeL ns i).getRegister .height = max L.depth1 R.depth1 + 1 - 1
  omega

theorem bfterm_eq {s : TreeState} {li : Nat} {L : ATree}
    (hL : RepTree s.nodes li L) (haccL : hAcc s.nodes L) (hdL : L.depth1 ≤ 127) :
    (if li ≠ SENTINEL then
      i8wrap (i8ofU8 ((getNodeL s.nodes li).getRegister .height) + 1) else 0) =
      (L.depth1 : Int) := by
  cases hL with
  | leaf => rw [if_neg (by unfold SENTINEL; omega)]; rfl
  | node hne hle hk hv hl hr =>
    rename_i k v l r
    rw [if_pos (by unfold SENTINEL; omega)]
    obtain ⟨hh, _, _⟩ := haccL
    have hd' : max l.depth1 r.depth1 + 1 ≤ 127 := hdL
    rw [hh, i8ofU8_small (by omega)]
    have hcast : ((max l.depth1 r.depth1 : Nat) : Int) + 1 =
        (((ATree.node li k v l r).depth1 : Nat) : Int) := by
      show ((max l.depth1 r.depth1 : Nat) : Int) + 1 =
        ((max l.depth1 r.depth1 + 1 : Nat) : Int)
      push_cast
      ring
    rw [hcast, i8wrap_small (by omega) (by omega)]

theorem balanceFactor_eq {s : TreeState} {li ri : Nat} {L R : ATree}
    (hL : RepTree s.nodes li L) (hR : RepTree s.nodes ri R)
    (haccL : hAcc s.nodes L) (haccR : hAcc s.nodes R)
    (hdL : L.depth1 ≤ 127) (hdR : R.depth1 ≤ 127) :
    s.balanceFactor li ri = (L.depth1 : Int) - (R.depth1 : Int) := by
  unfold TreeState.balanceFactor
  rw [bfterm_eq hL haccL hdL, bfterm_eq hR haccR hdR, i8wrap_small (by omega) (by omega)]

/-! ### updateHeight and updateChild characterization -/

theorem RepTree.zero_iff {ns : List U8Node} {i : Nat} {t : ATree} (h : RepTree ns i t) :
    i = 0 ↔ t = .leaf := by
  cases h with
  | leaf => simp
  | node hne => exact ⟨fun hc => absurd hc hne, fun hc => by cases hc⟩

theorem hterm_eq {s : TreeState} {li : Nat} {L : ATree}
    (hL : RepTree s.nodes li L) (hacc : hAcc s.nodes L) :
    (if li ≠ SENTINEL then (getNodeL s.nodes li).getRegister .height else 0) =
      L.depth1 - 1 := by
  cases hL with
  | leaf => simp [SENTINEL, ATree.depth1]
  | node hne hle hk hv hl hr =>
    rename_i k v l r
    rw [if_pos (by unfold SENTINEL; exact hne)]
    rw [hacc.1]
    show max l.depth1 r.depth1 = max l.depth1 r.depth1 + 1 - 1
    omega

theorem ATree.depth1_eq_zero {t : ATree} : t.depth1 = 0 ↔ t = .leaf := by
  cases t with
  | leaf => simp [ATree.depth1]
  | node i k v l r =>
    constructor
    · intro hc
      exact absurd hc (by show ¬(max _ _ + 1 = 0); omega)
    · intro hc
      cases hc

theorem heightCalc_eq {s : TreeState} {p : Nat} {U R : ATree}
    (hU : RepTree s.nodes ((getNodeL s.nodes p).getRegister .left) U)
    (hR : RepTree s.nodes ((getNodeL s.nodes p).getRegister .right) R)
    (haccU : hAcc s.nodes U) (haccR : hAcc s.nodes R) :
    heightCalc s p = max U.depth1 R.depth1 := by
  unfold heightCalc
  by_cases hboth : (getNodeL s.nodes p).getRegister .left = SENTINEL ∧
      (getNodeL s.nodes p).getRegister .right = SENTINEL
  · rw [if_pos hboth]
    have hUl : U = .leaf := hU.zero_iff.mp hboth.1
    have hRl : R = .leaf := hR.zero_iff.mp hboth.2
    rw [hUl, hRl]
    rfl
  · rw [if_neg hboth]
    show max
        (if (getNodeL s.nodes p).getRegister .left ≠ SENTINEL then
          (getNodeL s.nodes ((getNodeL s.nodes p).getRegister .left)).getRegister .height else 0)
        (if (getNodeL s.nodes p).getRegister .right ≠ SENTINEL then
          (getNodeL s.nodes ((getNodeL s.nodes p).getRegister .right)).getRegister .height
          else 0) + 1 =
      max U.depth1 R.depth1
    rw [hterm_eq hU haccU, hterm_eq hR haccR]
    have hnz : ¬(U.depth1 = 0 ∧ R.depth1 = 0) := by
      intro ⟨h1, h2⟩
      exact hboth ⟨hU.zero_iff.mpr (ATree.depth1_eq_zero.mp h1),
        hR.zero_iff.mpr (ATree.depth1_eq_zero.mp h2)⟩
    omega

theorem updateHeight_alloc (s : TreeState) (p : Nat) :
    (s.updateHeight p).allocator = s.allocator := rfl

theorem updateHeight_len (s : TreeState) (p : Nat) :
    (s.updateHeight p).nodes.length = s.nodes.length := List.length_set _ _ _

theorem updateHeight_nok {s : TreeState} (hok : NodesOk s.nodes) (p : Nat) :
    NodesOk (s.updateHeight p).nodes :=
  nodesOk_modifyNode hok _ _ fun n => U8Node.regLen_setRegister n _ _

theorem updateHeight_frame {s : TreeState} (hok : NodesOk s.nodes) (p : Nat)
    {j : Nat} (hj1 : 1 ≤ j) (hj2 : j ≤ 255) (hjp : j ≠ p) (hp1 : 1 ≤ p) (hp2 : p ≤ 255) :
    getNodeL (s.updateHeight p).nodes j = getNodeL s.nodes j := by
  show getNodeL (modifyNode s.nodes p
    (fun n => n.setRegister .height (heightCalc s p))) j = getNodeL s.nodes j
  exact getNodeL_modifyNode_ne _ _ _ _ hj1 hj2 hp1 hp2 hjp

theorem updateHeight_at {s : TreeState} (hok : NodesOk s.nodes) {p : Nat}
    (hp1 : 1 ≤ p) (hp2 : p ≤ s.nodes.length) :
    getNodeL (s.updateHeight p).nodes p =
      (getNodeL s.nodes p).setRegister .height (heightCalc s p) := by
  show getNodeL (modifyNode s.nodes p
    (fun n => n.setRegister .height (heightCalc s p))) p = _
  exact getNodeL_modifyNode_same _ _ _ hp1 hp2 hok.1

theorem RepTree_updateHeight {s : TreeState} {a : Nat} {t : ATree}
    (h : RepTree s.nodes a t) (hok : NodesOk s.nodes) {p : Nat} (hp1 : 1 ≤ p) (hp2 : p ≤ 255) :
    RepTree (s.updateHeight p).nodes a t :=
  h.dataPreserve hok.1 hp1 hp2 _ fun n => nodeData_setRegister_height n _

theorem updateChild_sim_left {s : TreeState} {p c : Nat} {U S : ATree}
    (hok : NodesOk s.nodes) (hp1 : 1 ≤ p) (hp2 : p ≤ s.nodes.length)
    (hU : RepTree s.nodes c U)
    (hS : RepTree s.nodes ((getNodeL s.nodes p).getRegister .right) S)
    (hc : c ≤ 255) (hpU : p ∉ U.idxs) (hpS : p ∉ S.idxs)
    (haccU : hAcc s.nodes U) (haccS : hAcc s.nodes S)
    (hdm : max U.depth1 S.depth1 ≤ 127) :
    RepTree (s.updateChild p .left c).nodes p
      (.node p (getNodeL s.nodes p).key (getNodeL s.nodes p).value U S) ∧
    hAcc (s.updateChild p .left c).nodes
      (.node p (getNodeL s.nodes p).key (getNodeL s.nodes p).value U S) ∧
    (∀ j, 1 ≤ j → j ≤ 255 → j ≠ p →
      getNodeL (s.updateChild p .left c).nodes j = getNodeL s.nodes j) ∧
    (s.updateChild p .left c).allocator = s.allocator ∧
    (s.updateChild p .left c).nodes.length = s.nodes.length ∧
    NodesOk (s.updateChild p .left c).nodes := by
  have hL255 : s.nodes.length ≤ 255 := hok.1
  have hp255 : p ≤ 255 := hp2.trans hok.1
  have hs' : s.updateChild p .left c =
      (s.modNode p (fun n => n.setRegister .left c)).updateHeight p := rfl
  set s1 : TreeState := s.modNode p (fun n => n.setRegister .left c) with hs1
  have hn1 : s1.nodes = modifyNode s.nodes p (fun n => n.setRegister .left c) := rfl
  have hlen1 : s1.nodes.length = s.nodes.length := TreeState.nodesLen_modNode _ _ _
  have hnok1 : NodesOk s1.nodes := by
    rw [hn1]
    exact nodesOk_modifyNode hok _ _ fun n => U8Node.regLen_setRegister n _ _
  have hframe1 : ∀ j, 1 ≤ j → j ≤ 255 → j ≠ p → getNodeL s1.nodes j = getNodeL s.nodes j := by
    intro j hj1 hj2 hjp
    rw [hn1]
    exact getNodeL_modifyNode_ne _ _ _ _ hj1 hj2 hp1 hp255 hjp
  have hat1 : getNodeL s1.nodes p = (getNodeL s.nodes p).setRegister .left c := by
    rw [hn1]
    exact getNodeL_modifyNode_same _ _ _ hp1 hp2 hok.1
  have hreg4 : (getNodeL s.nodes p).registers.length = 4 := regLen_getNodeL hok p
  have hleft1 : (getNodeL s1.nodes p).getRegister .left = c := by
    rw [hat1, U8Node.getRegister_setRegister_same _ _ _ (by rw [hreg4]; decide),
      Nat.mod_eq_of_lt (by omega)]
  have hright1 : (getNodeL s1.nodes p).getRegister .right =
      (getNodeL s.nodes p).getRegister .right := by
    rw [hat1, U8Node.getRegister_setRegister_ne _ _ _ _ (by decide)]
  have hU1 : RepTree s1.nodes c U := by
    rw [hn1]
    exact hU.frame hok.1 hp1 hp255 hpU _
  have hS1 : RepTree s1.nodes ((getNodeL s1.nodes p).getRegister .right) S := by
    rw [hright1, hn1]
    exact hS.frame hok.1 hp1 hp255 hpS _
  have haccU1 : hAcc s1.nodes U := by
    refine hAcc_congr haccU fun j hj => ?_
    have hb := hU.bounds j hj
    rw [hframe1 j hb.1 (by omega) (fun hc' => hpU (hc' ▸ hj))]
  have haccS1 : hAcc s1.nodes S := by
    refine hAcc_congr haccS fun j hj => ?_
    have hb := hS.bounds j hj
    rw [hframe1 j hb.1 (by omega) (fun hc' => hpS (hc' ▸ hj))]
  have hUc1 : RepTree s1.nodes ((getNodeL s1.nodes p).getRegister .left) U := by
    rw [hleft1]; exact hU1
  have hcalc : heightCalc s1 p = max U.depth1 S.depth1 := heightCalc_eq hUc1 hS1 haccU1 haccS1
  have hat2 : getNodeL (s1.updateHeight p).nodes p =
      (getNodeL s1.nodes p).setRegister .height (heightCalc s1 p) :=
    updateHeight_at hnok1 hp1 (by omega)
  have hframe2 : ∀ j, 1 ≤ j → j ≤ 255 → j ≠ p →
      getNodeL (s1.updateHeight p).nodes j = getNodeL s1.nodes j :=
    fun j hj1 hj2 hjp => updateHeight_frame hnok1 p hj1 hj2 hjp hp1 hp255
  have hlen2 : (s1.updateHeight p).nodes.length = s.nodes.length :=
    (updateHeight_len s1 p).trans hlen1
  have hfk : (getNodeL (s1.updateHeight p).nodes p).key = (getNodeL s.nodes p).key := by
    rw [hat2, U8Node.key_setRegister, hat1, U8Node.key_setRegister]
  have hfv : (getNodeL (s1.updateHeight p).nodes p).value = (getNodeL s.nodes p).value := by
    rw [hat2, U8Node.value_setRegister, hat1, U8Node.value_setRegister]
  have hfl : (getNodeL (s1.updateHeight p).nodes p).getRegister .left = c := by
    rw [hat2, U8Node.getRegister_setRegister_ne _ _ _ _ (by decide), hleft1]
  have hfr : (getNodeL (s1.updateHeight p).nodes p).getRegister .right =
      (getNodeL s.nodes p).getRegister .right := by
    rw [hat2, U8Node.getRegister_setRegister_ne _ _ _ _ (by decide), hright1]
  have hfh : (getNodeL (s1.updateHeight p).nodes p).getRegister .height =
      max U.depth1 S.depth1 := by
    rw [hat2, U8Node.getRegister_setRegister_same _ _ _
      (by rw [hat1, U8Node.regLen_setRegister, hreg4]; decide), hcalc,
      Nat.mod_eq_of_lt (by omega)]
  have hU2 : RepTree (s1.updateHeight p).nodes c U := RepTree_updateHeight hU1 hnok1 hp1 hp255
  have hS2 : RepTree (s1.updateHeight p).nodes ((getNodeL s.nodes p).getRegister .right) S := by
    have := RepTree_updateHeight hS1 hnok1 hp1 hp255
    rwa [hright1] at this
  have haccU2 : hAcc (s1.updateHeight p).nodes U := by
    refine hAcc_congr haccU1 fun j hj => ?_
    have hb := hU.bounds j hj
    rw [hframe2 j hb.1 (by omega) (fun hc' => hpU (hc' ▸ hj))]
  have haccS2 : hAcc (s1.updateHeight p).nodes S := by
    refine hAcc_congr haccS1 fun j hj => ?_
    have hb := hS.bounds j hj
    rw [hframe2 j hb.1 (by omega) (fun hc' => hpS (hc' ▸ hj))]
  rw [hs']
  refine ⟨?_, ?_, ?_, rfl, hlen2, updateHeight_nok hnok1 p⟩
  · refine RepTree.node (by omega) (by omega) hfk hfv ?_ ?_
    · rw [hfl]; exact hU2
    · rw [hfr]; exact hS2
  · exact ⟨hfh, haccU2, haccS2⟩
  · intro j hj1 hj2 hjp
    rw [hframe2 j hj1 hj2 hjp, hframe1 j hj1 hj2 hjp]

theorem updateChild_sim_right {s : TreeState} {p c : Nat} {U S : ATree}
    (hok : NodesOk s.nodes) (hp1 : 1 ≤ p) (hp2 : p ≤ s.nodes.length)
    (hU : RepTree s.nodes c U)
    (hS : RepTree s.nodes ((getNodeL s.nodes p).getRegister .left) S)
    (hc : c ≤ 255) (hpU : p ∉ U.idxs) (hpS : p ∉ S.idxs)
    (haccU : hAcc s.nodes U) (haccS : hAcc s.nodes S)
    (hdm : max U.depth1 S.depth1 ≤ 127) :
    RepTree (s.updateChild p .right c).nodes p
      (.node p (getNodeL s.nodes p).key (getNodeL s.nodes p).value S U) ∧
    hAcc (s.updateChild p .right c).nodes
      (.node p (getNodeL s.nodes p).key (getNodeL s.nodes p).value S U) ∧
    (∀ j, 1 ≤ j → j ≤ 255 → j ≠ p →
      getNodeL (s.updateChild p .right c).nodes j = getNodeL s.nodes j) ∧
    (s.updateChild p .right c).allocator = s.allocator ∧
    (s.updateChild p .right c).nodes.length = s.nodes.length ∧
    NodesOk (s.updateChild p .right c).nodes := by
  have hL255 : s.nodes.length ≤ 255 := hok.1
  have hp255 : p ≤ 255 := hp2.trans hok.1
  have hs' : s.updateChild p .right c =
      (s.modNode p (fun n => n.setRegister .right c)).updateHeight p := rfl
  set s1 : TreeState := s.modNode p (fun n => n.setRegister .right c) with hs1
  have hn1 : s1.nodes = modifyNode s.nodes p (fun n => n.setRegister .right c) := rfl
  have hlen1 : s1.nodes.length = s.nodes.length := TreeState.nodesLen_modNode _ _ _
  have hnok1 : NodesOk s1.nodes := by
    rw [hn1]
    exact nodesOk_modifyNode hok _ _ fun n => U8Node.regLen_setRegister n _ _
  have hframe1 : ∀ j, 1 ≤ j → j ≤ 255 → j ≠ p → getNodeL s1.nodes j = getNodeL s.nodes j := by
    intro j hj1 hj2 hjp
    rw [hn1]
    exact getNodeL_modifyNode_ne _ _ _ _ hj1 hj2 hp1 hp255 hjp
  have hat1 : getNodeL s1.nodes p = (getNodeL s.nodes p).setRegister .right c := by
    rw [hn1]
    exact getNodeL_modifyNode_same _ _ _ hp1 hp2 hok.1
  have hreg4 : (getNodeL s.nodes p).registers.length = 4 := regLen_getNodeL hok p
  have hleft1 : (getNodeL s1.nodes p).getRegister .right = c := by
    rw [hat1, U8Node.getRegister_setRegister_same _ _ _ (by rw [hreg4]; decide),
      Nat.mod_eq_of_lt (by omega)]
  have hright1 : (getNodeL s1.nodes p).getRegister .left =
      (getNodeL s.nodes p).getRegister .left := by
    rw [hat1, U8Node.getRegister_setRegister_ne _ _ _ _ (by decide)]
  have hU1 : RepTree s1.nodes c U := by
    rw [hn1]
    exact hU.frame hok.1 hp1 hp255 hpU _
  have hS1 : RepTree s1.nodes ((getNodeL s1.nodes p).getRegister .left) S := by
    rw [hright1, hn1]
    exact hS.frame hok.1 hp1 hp255 hpS _
  have haccU1 : hAcc s1.nodes U := by
    refine hAcc_congr haccU fun j hj => ?_
    have hb := hU.bounds j hj
    rw [hframe1 j hb.1 (by omega) (fun hc' => hpU (hc' ▸ hj))]
  have haccS1 : hAcc s1.nodes S := by
    refine hAcc_congr haccS fun j hj => ?_
    have hb := hS.bounds j hj
    rw [hframe1 j hb.1 (by omega) (fun hc' => hpS (hc' ▸ hj))]
  have hUc1 : RepTree s1.nodes ((getNodeL s1.nodes p).getRegister .right) U := by
    rw [hleft1]; exact hU1
  have hcalc : heightCalc s1 p = max S.depth1 U.depth1 := heightCalc_eq hS1 hUc1 haccS1 haccU1
  have hat2 : getNodeL (s1.updateHeight p).nodes p =
      (getNodeL s1.nodes p).setRegister .height (heightCalc s1 p) :=
    updateHeight_at hnok1 hp1 (by omega)
  have hframe2 : ∀ j, 1 ≤ j → j ≤ 255 → j ≠ p →
      getNodeL (s1.updateHeight p).nodes j = getNodeL s1.nodes j :=
    fun j hj1 hj2 hjp => updateHeight_frame hnok1 p hj1 hj2 hjp hp1 hp255
  have hlen2 : (s1.updateHeight p).nodes.length = s.nodes.length :=
    (updateHeight_len s1 p).trans hlen1
  have hfk : (getNodeL (s1.updateHeight p).nodes p).key = (getNodeL s.nodes p).key := by
    rw [hat2, U8Node.key_setRegister, hat1, U8Node.key_setRegister]
  have hfv : (getNodeL (s1.updateHeight p).nodes p).value = (getNodeL s.nodes p).value := by
    rw [hat2, U8Node.value_setRegister, hat1, U8Node.value_setRegister]
  have hfl : (getNodeL (s1.updateHeight p).nodes p).getRegister .right = c := by
    rw [hat2, U8Node.getRegister_setRegister_ne _ _ _ _ (by decide), hleft1]
  have hfr : (getNodeL (s1.updateHeight p).nodes p).getRegister .left =
      (getNodeL s.nodes p).getRegister .left := by
    rw [hat2, U8Node.getRegister_setRegister_ne _ _ _ _ (by decide), hright1]
  have hfh : (getNodeL (s1.updateHeight p).nodes p).getRegister .height =
      max S.depth1 U.depth1 := by
    rw [hat2, U8Node.getRegister_setRegister_same _ _ _
      (by rw [hat1, U8Node.regLen_setRegister, hreg4]; decide), hcalc,
      Nat.mod_eq_of_lt (by omega)]
  have hU2 : RepTree (s1.updateHeight p).nodes c U := RepTree_updateHeight hU1 hnok1 hp1 hp255
  have hS2 : RepTree (s1.updateHeight p).nodes ((getNodeL s.nodes p).getRegister .left) S := by
    have := RepTree_updateHeight hS1 hnok1 hp1 hp255
    rwa [hright1] at this
  have haccU2 : hAcc (s1.updateHeight p).nodes U := by
    refine hAcc_congr haccU1 fun j hj => ?_
    have hb := hU.bounds j hj
    rw [hframe2 j hb.1 (by omega) (fun hc' => hpU (hc' ▸ hj))]
  have haccS2 : hAcc (s1.updateHeight p).nodes S := by
    refine hAcc_congr haccS1 fun j hj => ?_
    have hb := hS.bounds j hj
    rw [hframe2 j hb.1 (by omega) (fun hc' => hpS (hc' ▸ hj))]
  rw [hs']
  refine ⟨?_, ?_, ?_, rfl, hlen2, updateHeight_nok hnok1 p⟩
  · refine RepTree.node (by omega) (by omega) hfk hfv ?_ ?_
    · rw [hfr]; exact hS2
    · rw [hfl]; exact hU2
  · exact ⟨hfh, haccS2, haccU2⟩
  · intro j hj1 hj2 hjp
    rw [hframe2 j hj1 hj2 hjp, hframe1 j hj1 hj2 hjp]

/-! ### Rotation lemmas -/

theorem RepTree.node_elim {ns : List U8Node} {i j k v : Nat} {L R : ATree}
    (h : RepTree ns i (.node j k v L R)) :
    j = i ∧ i ≠ 0 ∧ i ≤ ns.length ∧ (getNodeL ns i).key = k ∧ (getNodeL ns i).value = v ∧
      (getNodeL ns i).getRegister .left = L.rootIdx ∧
      (getNodeL ns i).getRegister .right = R.rootIdx ∧
      RepTree ns ((getNodeL ns i).getRegister .left) L ∧
      RepTree ns ((getNodeL ns i).getRegister .right) R := by
  cases h with
  | node hne hle hk hv hl hr =>
    exact ⟨rfl, hne, hle, hk, hv, hl.rootIdx_eq.symm, hr.rootIdx_eq.symm, hl, hr⟩

theorem ATree.nodup_node {i k v : Nat} {L R : ATree}
    (h : (ATree.node i k v L R).idxs.Nodup) :
    i ∉ L.idxs ∧ i ∉ R.idxs ∧ L.idxs.Nodup ∧ R.idxs.Nodup ∧
      ∀ j ∈ L.idxs, j ∉ R.idxs := by
  simp only [ATree.idxs, List.nodup_cons, List.nodup_append, List.mem_append] at h
  obtain ⟨hni, hL, hR, hdisj⟩ := h
  exact ⟨fun hc => hni (Or.inl hc), fun hc => hni (Or.inr hc), hL, hR, hdisj⟩

theorem rootIdx_le_255 {ns : List U8Node} {i : Nat} {t : ATree}
    (h : RepTree ns i t) (hL : ns.length ≤ 255) : i ≤ 255 := by
  cases h with
  | leaf => omega
  | node hne hle => omega

theorem perm_rotate_left (c ri : Nat) (A B C : List Nat) :
    (ri :: ((c :: (A ++ B)) ++ C)).Perm (c :: (A ++ ri :: (B ++ C))) := by
  simp only [List.cons_append, List.append_assoc]
  exact (List.Perm.swap c ri _).trans (List.perm_middle.symm.cons c)

theorem perm_rotate_right (c li : Nat) (A B C : List Nat) :
    (li :: (A ++ (c :: (B ++ C)))).Perm (c :: ((li :: (A ++ B)) ++ C)) := by
  simp only [List.cons_append, List.append_assoc]
  exact (List.perm_middle.cons li).trans (List.Perm.swap c li _)

theorem leftRotate_sim {s : TreeState} {c k v ri rk rv : Nat} {L RL RR : ATree}
    (hok : NodesOk s.nodes)
    (hrep : RepTree s.nodes c (.node c k v L (.node ri rk rv RL RR)))
    (hnd : (ATree.node c k v L (.node ri rk rv RL RR)).idxs.Nodup)
    (haccL : hAcc s.nodes L) (haccR : hAcc s.nodes (.node ri rk rv RL RR))
    (hd : (ATree.node c k v L (.node ri rk rv RL RR)).depth1 ≤ 127) :
    (s.leftRotate c).1 = ri ∧
      RotOut s (.node c k v L (.node ri rk rv RL RR))
        (.node ri rk rv (.node c k v L RL) RR) (s.leftRotate c).2 := by
  have hL255 : s.nodes.length ≤ 255 := hok.1
  obtain ⟨-, hne, hle, hk, hv, hlreg, hrreg, hl, hr⟩ := hrep.node_elim
  have hji : (getNodeL s.nodes c).getRegister .right = ri := (hr.node_elim).1.symm
  have hr' : RepTree s.nodes ri (.node ri rk rv RL RR) := hji ▸ hr
  obtain ⟨-, hne2, hle2, hk2, hv2, hrlreg, hrrreg, hrl, hrr⟩ := hr'.node_elim
  obtain ⟨hh2, haccRL, haccRR⟩ := haccR
  obtain ⟨hcL, hcR, hndL, hndR, hdisjLR⟩ := ATree.nodup_node hnd
  obtain ⟨hriRL, hriRR, hndRL, hndRR, hdisjRLRR⟩ := ATree.nodup_node hndR
  have hd' : max L.depth1 (max RL.depth1 RR.depth1 + 1) + 1 ≤ 127 := hd
  have hric : ri ≠ c := fun hx =>
    hcR (hx ▸ List.mem_cons_self ri (RL.idxs ++ RR.idxs))
  have hcRL : c ∉ RL.idxs := fun hx =>
    hcR (List.mem_cons_of_mem _ (List.mem_append_left _ hx))
  have hcRR : c ∉ RR.idxs := fun hx =>
    hcR (List.mem_cons_of_mem _ (List.mem_append_right _ hx))
  have hriL : ri ∉ L.idxs := fun hx =>
    hdisjLR ri hx (List.mem_cons_self ri (RL.idxs ++ RR.idxs))
  have hrot : s.leftRotate c =
      (ri, (s.updateChild c .right RL.rootIdx).updateChild ri .left c) := by
    show ((getNodeL s.nodes c).getRegister .right,
      (s.updateChild c .right
        ((getNodeL s.nodes ((getNodeL s.nodes c).getRegister .right)).getRegister .left)
        ).updateChild ((getNodeL s.nodes c).getRegister .right) .left c) = _
    rw [hji, hrlreg]
  have hU0 : RepTree s.nodes RL.rootIdx RL := by rw [← hrlreg]; exact hrl
  have hRR0 : RepTree s.nodes RR.rootIdx RR := by rw [← hrrreg]; exact hrr
  have hstep1 := updateChild_sim_right hok (by omega) hle hU0 hl
    (rootIdx_le_255 hU0 hL255) hcRL hcL haccRL haccL (by omega)
  rw [hk, hv] at hstep1
  obtain ⟨hrep1, hacc1, hframe1, halloc1, hlen1, hnok1⟩ := hstep1
  set s1 : TreeState := s.updateChild c .right RL.rootIdx with hs1
  have hri255 : ri ≤ 255 := hle2.trans hL255
  have hc255 : c ≤ 255 := hle.trans hL255
  have hgr : getNodeL s1.nodes ri = getNodeL s.nodes ri :=
    hframe1 ri (by omega) hri255 hric
  have hagRR : ∀ j ∈ RR.idxs, nodeData (getNodeL s1.nodes j) = nodeData (getNodeL s.nodes j) := by
    intro j hj
    have hb := hRR0.bounds j hj
    rw [hframe1 j hb.1 (by omega) (fun hx => hcRR (hx ▸ hj))]
  have hRR1 : RepTree s1.nodes ((getNodeL s1.nodes ri).getRegister .right) RR := by
    rw [hgr, hrrreg]
    exact hRR0.congr hlen1 hagRR
  have haccRR1 : hAcc s1.nodes RR := by
    refine hAcc_congr haccRR fun j hj => ?_
    have hb := hRR0.bounds j hj
    rw [hframe1 j hb.1 (by omega) (fun hx => hcRR (hx ▸ hj))]
  have hriT1 : ri ∉ (ATree.node c k v L RL).idxs := by
    simp only [ATree.idxs, List.mem_cons, List.mem_append]
    rintro (hx | hx | hx)
    · exact hric hx
    · exact hriL hx
    · exact hriRL hx
  have hstep2 := updateChild_sim_left hnok1 (by omega) (by rw [hlen1]; exact hle2)
    hrep1 hRR1 hc255 hriT1 hriRR hacc1 haccRR1
    (by show max (max L.depth1 RL.depth1 + 1) RR.depth1 ≤ 127; omega)
  rw [hgr, hk2, hv2] at hstep2
  obtain ⟨hrep2, hacc2, hframe2, halloc2, hlen2, hnok2⟩ := hstep2
  constructor
  · rw [hrot]
  · rw [hrot]
    refine ⟨hrep2, hacc2, ?_, ?_, ?_, ?_, ?_, hnok2⟩
    · show (ATree.node ri rk rv (ATree.node c k v L RL) RR).kvs =
        (ATree.node c k v L (ATree.node ri rk rv RL RR)).kvs
      simp [ATree.kvs, List.append_assoc]
    · show (ATree.node ri rk rv (ATree.node c k v L RL) RR).idxs.Perm
        (ATree.node c k v L (ATree.node ri rk rv RL RR)).idxs
      simp only [ATree.idxs]
      exact perm_rotate_left c ri L.idxs RL.idxs RR.idxs
    · intro j hj1 hj2 hjmem
      simp only [ATree.idxs, List.mem_cons, List.mem_append] at hjmem
      push_neg at hjmem
      rw [hframe2 j hj1 hj2 (by tauto), hframe1 j hj1 hj2 (by tauto)]
    · rw [hlen2, hlen1]
    · rw [halloc2, halloc1]


theorem rightRotate_sim {s : TreeState} {c k v li lk lv : Nat} {LL LR R : ATree}
    (hok : NodesOk s.nodes)
    (hrep : RepTree s.nodes c (.node c k v (.node li lk lv LL LR) R))
    (hnd : (ATree.node c k v (.node li lk lv LL LR) R).idxs.Nodup)
    (haccLtot : hAcc s.nodes (.node li lk lv LL LR)) (haccR : hAcc s.nodes R)
    (hd : (ATree.node c k v (.node li lk lv LL LR) R).depth1 ≤ 127) :
    (s.rightRotate c).1 = li ∧
      RotOut s (.node c k v (.node li lk lv LL LR) R)
        (.node li lk lv LL (.node c k v LR R)) (s.rightRotate c).2 := by
  have hL255 : s.nodes.length ≤ 255 := hok.1
  obtain ⟨-, hne, hle, hk, hv, hlreg, hrreg, hl, hr⟩ := hrep.node_elim
  have hji : (getNodeL s.nodes c).getRegister .left = li := (hl.node_elim).1.symm
  have hl' : RepTree s.nodes li (.node li lk lv LL LR) := hji ▸ hl
  obtain ⟨-, hne2, hle2, hk2, hv2, hllreg, hlrreg, hll, hlr⟩ := hl'.node_elim
  obtain ⟨hh2, haccLL, haccLR⟩ := haccLtot
  obtain ⟨hcLt, hcR, hndLt, hndR, hdisjLR⟩ := ATree.nodup_node hnd
  obtain ⟨hliLL, hliLR, hndLL, hndLR, hdisjLLLR⟩ := ATree.nodup_node hndLt
  have hd' : max (max LL.depth1 LR.depth1 + 1) R.depth1 + 1 ≤ 127 := hd
  have hlic : li ≠ c := fun hx =>
    hcLt (hx ▸ List.mem_cons_self li (LL.idxs ++ LR.idxs))
  have hcLL : c ∉ LL.idxs := fun hx =>
    hcLt (List.mem_cons_of_mem _ (List.mem_append_left _ hx))
  have hcLR : c ∉ LR.idxs := fun hx =>
    hcLt (List.mem_cons_of_mem _ (List.mem_append_right _ hx))
  have hliR : li ∉ R.idxs := by
    intro hx
    have hmem : li ∈ (ATree.node li lk lv LL LR).idxs :=
      List.mem_cons_self li (LL.idxs ++ LR.idxs)
    exact hdisjLR li hmem hx
  have hrot : s.rightRotate c =
      (li, (s.updateChild c .left LR.rootIdx).updateChild li .right c) := by
    show ((getNodeL s.nodes c).getRegister .left,
      (s.updateChild c .left
        ((getNodeL s.nodes ((getNodeL s.nodes c).getRegister .left)).getRegister .right)
        ).updateChild ((getNodeL s.nodes c).getRegister .left) .right c) = _
    rw [hji, hlrreg]
  have hU0 : RepTree s.nodes LR.rootIdx LR := by rw [← hlrreg]; exact hlr
  have hRR0 : RepTree s.nodes R.rootIdx R := by rw [← hrreg]; exact hr
  have hstep1 := updateChild_sim_left hok (by omega) hle hU0 hr
    (rootIdx_le_255 hU0 hL255) hcLR hcR haccLR haccR (by omega)
  rw [hk, hv] at hstep1
  obtain ⟨hrep1, hacc1, hframe1, halloc1, hlen1, hnok1⟩ := hstep1
  set s1 : TreeState := s.updateChild c .left LR.rootIdx with hs1
  have hli255 : li ≤ 255 := hle2.trans hL255
  have hc255 : c ≤ 255 := hle.trans hL255
  have hgr : getNodeL s1.nodes li = getNodeL s.nodes li :=
    hframe1 li (by omega) hli255 hlic
  have hagLL : ∀ j ∈ LL.idxs, nodeData (getNodeL s1.nodes j) = nodeData (getNodeL s.nodes j) := by
    intro j hj
    have hb := hll.bounds j hj
    rw [hframe1 j hb.1 (by omega) (fun hx => hcLL (hx ▸ hj))]
  have hLL1 : RepTree s1.nodes ((getNodeL s1.nodes li).getRegister .left) LL := by
    rw [hgr]
    exact hll.congr hlen1 hagLL
  have haccLL1 : hAcc s1.nodes LL := by
    refine hAcc_congr haccLL fun j hj => ?_
    have hb := hll.bounds j hj
    rw [hframe1 j hb.1 (by omega) (fun hx => hcLL (hx ▸ hj))]
  have hliT1 : li ∉ (ATree.node c k v LR R).idxs := by
    simp only [ATree.idxs, List.mem_cons, List.mem_append]
    rintro (hx | hx | hx)
    · exact hlic hx
    · exact hliLR hx
    · exact hliR hx
  have hstep2 := updateChild_sim_right hnok1 (by omega) (by rw [hlen1]; exact hle2)
    hrep1 hLL1 hc255 hliT1 hliLL hacc1 haccLL1
    (by show max (max LR.depth1 R.depth1 + 1) LL.depth1 ≤ 127; omega)
  rw [hgr, hk2, hv2] at hstep2
  obtain ⟨hrep2, hacc2, hframe2, halloc2, hlen2, hnok2⟩ := hstep2
  constructor
  · rw [hrot]
  · rw [hrot]
    refine ⟨hrep2, hacc2, ?_, ?_, ?_, ?_, ?_, hnok2⟩
    · show (ATree.node li lk lv LL (ATree.node c k v LR R)).kvs =
        (ATree.node c k v (ATree.node li lk lv LL LR) R).kvs
      simp [ATree.kvs, List.append_assoc]
    · show (ATree.node li lk lv LL (ATree.node c k v LR R)).idxs.Perm
        (ATree.node c k v (ATree.node li lk lv LL LR) R).idxs
      simp only [ATree.idxs]
      exact perm_rotate_right c li LL.idxs LR.idxs R.idxs
    · intro j hj1 hj2 hjmem
      simp only [ATree.idxs, List.mem_cons, List.mem_append] at hjmem
      push_neg at hjmem
      rw [hframe2 j hj1 hj2 (by tauto), hframe1 j hj1 hj2 (by tauto)]
    · rw [hlen2, hlen1]
    · rw [halloc2, halloc1]

theorem rebalanceCore_sim {s : TreeState} {c k v : Nat} {L R : ATree}
    (hok : NodesOk s.nodes)
    (hrep : RepTree s.nodes c (.node c k v L R))
    (hnd : (ATree.node c k v L R).idxs.Nodup)
    (haccL : hAcc s.nodes L) (haccR : hAcc s.nodes R)
    (havlL : L.AVL) (havlR : R.AVL)
    (hdL : L.depth1 ≤ 126) (hdR : R.depth1 ≤ 126)
    (hbal : L.depth1 ≤ R.depth1 + 2 ∧ R.depth1 ≤ L.depth1 + 2) :
    ∃ T', RotOut s (.node c k v L R) T' (rebalanceCore s c).2 ∧ T'.AVL ∧ T'.rootIdx ≠ 0 ∧
      (((rebalanceCore s c).1 = none ∧ T'.rootIdx = c ∧
          T'.depth1 = max L.depth1 R.depth1 + 1 ∧
          max L.depth1 R.depth1 ≤ min L.depth1 R.depth1 + 1) ∨
        ((rebalanceCore s c).1 = some T'.rootIdx ∧
          (T'.depth1 = max L.depth1 R.depth1 ∨
            T'.depth1 = max L.depth1 R.depth1 + 1) ∧
          (L.depth1 = R.depth1 + 2 ∨ R.depth1 = L.depth1 + 2))) := by
  have hL255 : s.nodes.length ≤ 255 := hok.1
  obtain ⟨-, hne, hle, hk, hv, hlreg, hrreg, hl, hr⟩ := hrep.node_elim
  obtain ⟨hcL, hcR, hndL, hndR, hdisjLR⟩ := ATree.nodup_node hnd
  have hbf : s.balanceFactor ((getNodeL s.nodes c).getRegister .left)
      ((getNodeL s.nodes c).getRegister .right) = (L.depth1 : Int) - R.depth1 :=
    balanceFactor_eq hl hr haccL haccR (by omega) (by omega)
  have hcore : rebalanceCore s c =
      (if 1 < s.balanceFactor ((getNodeL s.nodes c).getRegister .left)
          ((getNodeL s.nodes c).getRegister .right) then
        (let s1 :=
          if s.balanceFactor
              ((getNodeL s.nodes ((getNodeL s.nodes c).getRegister .left)).getRegister .left)
              ((getNodeL s.nodes ((getNodeL s.nodes c).getRegister .left)).getRegister .right)
              < 0 then
            (s.leftRotate ((getNodeL s.nodes c).getRegister .left)).2.updateChild c .left
              (s.leftRotate ((getNodeL s.nodes c).getRegister .left)).1
          else s
        (some (s1.rightRotate c).1, (s1.rightRotate c).2))
      else if s.balanceFactor ((getNodeL s.nodes c).getRegister .left)
          ((getNodeL s.nodes c).getRegister .right) < -1 then
        (let s1 :=
          if 0 < s.balanceFactor
              ((getNodeL s.nodes ((getNodeL s.nodes c).getRegister .right)).getRegister .left)
              ((getNodeL s.nodes ((getNodeL s.nodes c).getRegister .right)).getRegister .right)
              then
            (s.rightRotate ((getNodeL s.nodes c).getRegister .right)).2.updateChild c .right
              (s.rightRotate ((getNodeL s.nodes c).getRegister .right)).1
          else s
        (some (s1.leftRotate c).1, (s1.leftRotate c).2))
      else (none, s.updateHeight c)) := rfl
  by_cases h1 : (1 : Int) < (L.depth1 : Int) - R.depth1
  · cases L with
    | leaf =>
      refine absurd h1 ?_
      show ¬(1 < (ATree.depth1 .leaf : Int) - R.depth1)
      show ¬(1 < ((0 : Nat) : Int) - R.depth1)
      omega
    | node li lk lv LL LR =>
      obtain ⟨hji2, hne2, hle2, hk2, hv2, hllreg, hlrreg, hll, hlr⟩ := hl.node_elim
      obtain ⟨hbalL, havlLL, havlLR⟩ := havlL
      have haccLL : hAcc s.nodes LL := haccL.2.1
      have haccLR : hAcc s.nodes LR := haccL.2.2
      obtain ⟨hliLL, hliLR, hndLL, hndLR, hdisjLLLR⟩ := ATree.nodup_node hndL
      have hdLL : LL.depth1 ≤ 125 := by
        have : (ATree.node li lk lv LL LR).depth1 = max LL.depth1 LR.depth1 + 1 := rfl
        omega
      have hdLR : LR.depth1 ≤ 125 := by
        have : (ATree.node li lk lv LL LR).depth1 = max LL.depth1 LR.depth1 + 1 := rfl
        omega
      have hlbf : s.balanceFactor
          ((getNodeL s.nodes ((getNodeL s.nodes c).getRegister .left)).getRegister .left)
          ((getNodeL s.nodes ((getNodeL s.nodes c).getRegister .left)).getRegister .right) =
          (LL.depth1 : Int) - LR.depth1 :=
        balanceFactor_eq hll hlr haccLL haccLR (by omega) (by omega)
      have hLd : (ATree.node li lk lv LL LR).depth1 = max LL.depth1 LR.depth1 + 1 := rfl
      by_cases hlb : s.balanceFactor
          ((getNodeL s.nodes ((getNodeL s.nodes c).getRegister .left)).getRegister .left)
          ((getNodeL s.nodes ((getNodeL s.nodes c).getRegister .left)).getRegister .right) < 0
      · cases LR with
        | leaf =>
          rw [hlbf] at hlb
          refine absurd hlb ?_
          show ¬((LL.depth1 : Int) - ((0 : Nat) : Int) < 0)
          omega
        | node wi wk wv WL WR =>
          obtain ⟨hjw, hnew, hlew, hkw, hvw, hwlreg, hwrreg, hwl, hwr⟩ := hlr.node_elim
          obtain ⟨hbalW, havlWL, havlWR⟩ := havlLR
          have hWd : (ATree.node wi wk wv WL WR).depth1 = max WL.depth1 WR.depth1 + 1 := rfl
          have hli' : (getNodeL s.nodes c).getRegister .left = li := hji2.symm
          have hrepL : RepTree s.nodes li
              (.node li lk lv LL (.node wi wk wv WL WR)) := hli' ▸ hl
          have hR0 : RepTree s.nodes R.rootIdx R := by rw [← hrreg]; exact hr
          have hout0p := leftRotate_sim hok hrepL hndL haccLL haccLR
            (by show max LL.depth1 (max WL.depth1 WR.depth1 + 1) + 1 ≤ 127; omega)
          obtain ⟨hfst0, hout0⟩ := hout0p
          set s0 : TreeState := (s.leftRotate li).2 with hs0def
          have hnok0 : NodesOk s0.nodes := hout0.nok
          have hlen0 : s0.nodes.length = s.nodes.length := hout0.len
          have hc255 : c ≤ 255 := hle.trans hL255
          have hgc0 : getNodeL s0.nodes c = getNodeL s.nodes c :=
            hout0.frame c (by omega) hc255 hcL
          have hRinL : ∀ j ∈ R.idxs, j ∉ (ATree.node li lk lv LL (.node wi wk wv WL WR)).idxs :=
            fun j hj hx => hdisjLR j hx hj
          have hS0 : RepTree s0.nodes ((getNodeL s0.nodes c).getRegister .right) R := by
            rw [hgc0, hrreg]
            refine hR0.congr hlen0 fun j hj => ?_
            have hb := hR0.bounds j hj
            rw [hout0.frame j hb.1 (by omega) (hRinL j hj)]
          have haccR0 : hAcc s0.nodes R := by
            refine hAcc_congr haccR fun j hj => ?_
            have hb := hR0.bounds j hj
            rw [hout0.frame j hb.1 (by omega) (hRinL j hj)]
          have hcL0 : c ∉ (ATree.node wi wk wv (.node li lk lv LL WL) WR).idxs :=
            fun hx => hcL (hout0.perm.mem_iff.mp hx)
          have hwile : wi ≤ 255 := rootIdx_le_255 hout0.rep hnok0.1
          have hstep1 := updateChild_sim_left hnok0 (show 1 ≤ c by omega)
            (by rw [hlen0]; exact hle) hout0.rep hS0 hwile hcL0 hcR hout0.hacc haccR0
            (by show max (max (max LL.depth1 WL.depth1 + 1) WR.depth1 + 1) R.depth1 ≤ 127
                omega)
          rw [hgc0, hk, hv] at hstep1
          simp only [ATree.rootIdx] at hstep1
          obtain ⟨hrep1, hacc1, hframe1, halloc1, hlen1, hnok1⟩ := hstep1
          set s1 : TreeState := s0.updateChild c .left wi with hs1def
          have hPermTop : (ATree.node c k v (.node wi wk wv (.node li lk lv LL WL) WR) R).idxs.Perm
              (ATree.node c k v (.node li lk lv LL (.node wi wk wv WL WR)) R).idxs := by
            show (c :: ((ATree.node wi wk wv (.node li lk lv LL WL) WR).idxs ++ R.idxs)).Perm
              (c :: ((ATree.node li lk lv LL (.node wi wk wv WL WR)).idxs ++ R.idxs))
            exact (hout0.perm.append (List.Perm.refl R.idxs)).cons c
          have hnd1 : (ATree.node c k v
              (.node wi wk wv (.node li lk lv LL WL) WR) R).idxs.Nodup :=
            (hPermTop.nodup_iff).mpr hnd
          have hrot2 := rightRotate_sim hnok1 hrep1 hnd1 hacc1.2.1 hacc1.2.2
            (by show max (max (max LL.depth1 WL.depth1 + 1) WR.depth1 + 1) R.depth1 + 1 ≤ 127
                omega)
          obtain ⟨hfst2, hout2⟩ := hrot2
          have hcoreB1 : rebalanceCore s c =
              (some ((s1.rightRotate c).1), (s1.rightRotate c).2) := by
            rw [hcore, hbf, if_pos h1, if_pos hlb, hli', hfst0]
          rw [hlbf] at hlb
          have hdepths : (ATree.node li lk lv LL (.node wi wk wv WL WR)).depth1 =
              max LL.depth1 (max WL.depth1 WR.depth1 + 1) + 1 := rfl
          refine ⟨.node wi wk wv (.node li lk lv LL WL) (.node c k v WR R),
            ?_, ?_, ?_, Or.inr ⟨?_, ?_, by omega⟩⟩
          · rw [hcoreB1]
            refine ⟨hout2.rep, hout2.hacc, ?_, hout2.perm.trans hPermTop, ?_,
              hout2.len.trans (hlen1.trans hlen0),
              hout2.alloc.trans (halloc1.trans hout0.alloc), hout2.nok⟩
            · refine hout2.kvs.trans ?_
              show (ATree.node wi wk wv (.node li lk lv LL WL) WR).kvs ++ (k, v) :: R.kvs =
                (ATree.node li lk lv LL (.node wi wk wv WL WR)).kvs ++ (k, v) :: R.kvs
              rw [hout0.kvs]
            · intro j hj1 hj2 hjmem
              have hjnc : j ≠ c := by
                intro hx
                exact hjmem (hx ▸ List.mem_cons_self _ _)
              have hjnL : j ∉ (ATree.node li lk lv LL (.node wi wk wv WL WR)).idxs := by
                intro hx
                refine hjmem (List.mem_cons_of_mem _ (List.mem_append_left _ hx))
              have hjtop : j ∉ (ATree.node c k v
                  (.node wi wk wv (.node li lk lv LL WL) WR) R).idxs := by
                intro hx
                exact hjmem (hPermTop.mem_iff.mp hx)
              rw [hout2.frame j hj1 hj2 hjtop, hframe1 j hj1 hj2 hjnc,
                hout0.frame j hj1 hj2 hjnL]
          · refine ⟨?_, ⟨?_, havlLL, havlWL⟩, ⟨?_, havlWR, havlR⟩⟩
            · show max (max LL.depth1 WL.depth1 + 1) (max WR.depth1 R.depth1 + 1) ≤
                min (max LL.depth1 WL.depth1 + 1) (max WR.depth1 R.depth1 + 1) + 1
              omega
            · show max LL.depth1 WL.depth1 ≤ min LL.depth1 WL.depth1 + 1
              omega
            · show max WR.depth1 R.depth1 ≤ min WR.depth1 R.depth1 + 1
              omega
          · show wi ≠ 0
            rw [hjw]
            exact hnew
          · rw [hcoreB1, hfst2]
            rfl
          · show max (max LL.depth1 WL.depth1 + 1) (max WR.depth1 R.depth1 + 1) + 1 =
                max (ATree.node li lk lv LL (.node wi wk wv WL WR)).depth1 R.depth1 ∨
              max (max LL.depth1 WL.depth1 + 1) (max WR.depth1 R.depth1 + 1) + 1 =
                max (ATree.node li lk lv LL (.node wi wk wv WL WR)).depth1 R.depth1 + 1
            rw [hdepths]
            omega
      · have hcoreB2 : rebalanceCore s c =
            (some ((s.rightRotate c).1), (s.rightRotate c).2) := by
          rw [hcore, hbf, if_pos h1, if_neg hlb]
        have hrotsim := rightRotate_sim hok hrep hnd haccL haccR
          (by show max (max LL.depth1 LR.depth1 + 1) R.depth1 + 1 ≤ 127; omega)
        obtain ⟨hfst, hout⟩ := hrotsim
        rw [hlbf] at hlb
        refine ⟨.node li lk lv LL (.node c k v LR R), ?_, ?_, ?_,
          Or.inr ⟨?_, ?_, by omega⟩⟩
        · rw [hcoreB2]
          exact hout
        · refine ⟨?_, havlLL, ?_, havlLR, havlR⟩
          · show max LL.depth1 (max LR.depth1 R.depth1 + 1) ≤
              min LL.depth1 (max LR.depth1 R.depth1 + 1) + 1
            omega
          · show max LR.depth1 R.depth1 ≤ min LR.depth1 R.depth1 + 1
            omega
        · show li ≠ 0
          rw [hji2]
          exact hne2
        · rw [hcoreB2, hfst]
          rfl
        · show ATree.depth1 (.node li lk lv LL (.node c k v LR R)) =
              max (ATree.node li lk lv LL LR).depth1 R.depth1 ∨
            ATree.depth1 (.node li lk lv LL (.node c k v LR R)) =
              max (ATree.node li lk lv LL LR).depth1 R.depth1 + 1
          show max LL.depth1 (max LR.depth1 R.depth1 + 1) + 1 =
              max (ATree.node li lk lv LL LR).depth1 R.depth1 ∨
            max LL.depth1 (max LR.depth1 R.depth1 + 1) + 1 =
              max (ATree.node li lk lv LL LR).depth1 R.depth1 + 1
          rw [hLd]
          omega
  · by_cases h2 : ((L.depth1 : Int) - R.depth1) < -1
    · cases R with
      | leaf =>
        refine absurd h2 ?_
        show ¬((L.depth1 : Int) - ((0 : Nat) : Int) < -1)
        omega
      | node ri rk rv RL RR =>
        obtain ⟨hji2, hne2, hle2, hk2, hv2, hrlreg, hrrreg, hrl, hrr⟩ := hr.node_elim
        obtain ⟨hbalR, havlRL, havlRR⟩ := havlR
        have haccRL : hAcc s.nodes RL := haccR.2.1
        have haccRR : hAcc s.nodes RR := haccR.2.2
        obtain ⟨hriRL, hriRR, hndRL, hndRR, hdisjRLRR⟩ := ATree.nodup_node hndR
        have hdRL : RL.depth1 ≤ 125 := by
          have : (ATree.node ri rk rv RL RR).depth1 = max RL.depth1 RR.depth1 + 1 := rfl
          omega
        have hdRR : RR.depth1 ≤ 125 := by
          have : (ATree.node ri rk rv RL RR).depth1 = max RL.depth1 RR.depth1 + 1 := rfl
          omega
        have hrbf : s.balanceFactor
            ((getNodeL s.nodes ((getNodeL s.nodes c).getRegister .right)).getRegister .left)
            ((getNodeL s.nodes ((getNodeL s.nodes c).getRegister .right)).getRegister .right) =
            (RL.depth1 : Int) - RR.depth1 :=
          balanceFactor_eq hrl hrr haccRL haccRR (by omega) (by omega)
        have hRd : (ATree.node ri rk rv RL RR).depth1 = max RL.depth1 RR.depth1 + 1 := rfl
        by_cases hrb : 0 < s.balanceFactor
            ((getNodeL s.nodes ((getNodeL s.nodes c).getRegister .right)).getRegister .left)
            ((getNodeL s.nodes ((getNodeL s.nodes c).getRegister .right)).getRegister .right)
        · cases RL with
          | leaf =>
            rw [hrbf] at hrb
            refine absurd hrb ?_
            show ¬((0 : Int) < ((0 : Nat) : Int) - RR.depth1)
            omega
          | node wi wk wv WL WR =>
            obtain ⟨hjw, hnew, hlew, hkw, hvw, hwlreg, hwrreg, hwl, hwr⟩ := hrl.node_elim
            obtain ⟨hbalW, havlWL, havlWR⟩ := havlRL
            have hWd : (ATree.node wi wk wv WL WR).depth1 =
                max WL.depth1 WR.depth1 + 1 := rfl
            have hRd2 : (ATree.node ri rk rv (.node wi wk wv WL WR) RR).depth1 =
                max (max WL.depth1 WR.depth1 + 1) RR.depth1 + 1 := rfl
            have hri' : (getNodeL s.nodes c).getRegister .right = ri := hji2.symm
            have hrepR : RepTree s.nodes ri
                (.node ri rk rv (.node wi wk wv WL WR) RR) := hri' ▸ hr
            have hL0 : RepTree s.nodes L.rootIdx L := by rw [← hlreg]; exact hl
            have hout0p := rightRotate_sim hok hrepR hndR haccRL haccRR
              (by show max (max WL.depth1 WR.depth1 + 1) RR.depth1 + 1 ≤ 127; omega)
            obtain ⟨hfst0, hout0⟩ := hout0p
            set s0 : TreeState := (s.rightRotate ri).2 with hs0def
            have hnok0 : NodesOk s0.nodes := hout0.nok
            have hlen0 : s0.nodes.length = s.nodes.length := hout0.len
            have hc255 : c ≤ 255 := hle.trans hL255
            have hgc0 : getNodeL s0.nodes c = getNodeL s.nodes c :=
              hout0.frame c (by omega) hc255 hcR
            have hS0 : RepTree s0.nodes ((getNodeL s0.nodes c).getRegister .left) L := by
              rw [hgc0, hlreg]
              refine hL0.congr hlen0 fun j hj => ?_
              have hb := hL0.bounds j hj
              rw [hout0.frame j hb.1 (by omega) (hdisjLR j hj)]
            have haccL0 : hAcc s0.nodes L := by
              refine hAcc_congr haccL fun j hj => ?_
              have hb := hL0.bounds j hj
              rw [hout0.frame j hb.1 (by omega) (hdisjLR j hj)]
            have hcU0 : c ∉ (ATree.node wi wk wv WL (.node ri rk rv WR RR)).idxs :=
              fun hx => hcR (hout0.perm.mem_iff.mp hx)
            have hwile : wi ≤ 255 := rootIdx_le_255 hout0.rep hnok0.1
            have hstep1 := updateChild_sim_right hnok0 (show 1 ≤ c by omega)
              (by rw [hlen0]; exact hle) hout0.rep hS0 hwile hcU0 hcL hout0.hacc haccL0
              (by show max (max WL.depth1 (max WR.depth1 RR.depth1 + 1) + 1) L.depth1 ≤ 127
                  omega)
            rw [hgc0, hk, hv] at hstep1
            simp only [ATree.rootIdx] at hstep1
            obtain ⟨hrep1, hacc1, hframe1, halloc1, hlen1, hnok1⟩ := hstep1
            set s1 : TreeState := s0.updateChild c .right wi with hs1def
            have hPermTop : (ATree.node c k v L
                (.node wi wk wv WL (.node ri rk rv WR RR))).idxs.Perm
                (ATree.node c k v L (.node ri rk rv (.node wi wk wv WL WR) RR)).idxs := by
              show (c :: (L.idxs ++
                  (ATree.node wi wk wv WL (.node ri rk rv WR RR)).idxs)).Perm
                (c :: (L.idxs ++
                  (ATree.node ri rk rv (.node wi wk wv WL WR) RR).idxs))
              exact ((List.Perm.refl L.idxs).append hout0.perm).cons c
            have hnd1 : (ATree.node c k v L
                (.node wi wk wv WL (.node ri rk rv WR RR))).idxs.Nodup :=
              (hPermTop.nodup_iff).mpr hnd
            have hrot2 := leftRotate_sim hnok1 hrep1 hnd1 hacc1.2.1 hacc1.2.2
              (by show max L.depth1 (max WL.depth1 (max WR.depth1 RR.depth1 + 1) + 1) + 1 ≤ 127
                  omega)
            obtain ⟨hfst2, hout2⟩ := hrot2
            have hcoreC1 : rebalanceCore s c =
                (some ((s1.leftRotate c).1), (s1.leftRotate c).2) := by
              rw [hcore, hbf, if_neg h1, if_pos h2, if_pos hrb, hri', hfst0]
            rw [hrbf] at hrb
            have hdepths : (ATree.node ri rk rv (.node wi wk wv WL WR) RR).depth1 =
                max (max WL.depth1 WR.depth1 + 1) RR.depth1 + 1 := rfl
            refine ⟨.node wi wk wv (.node c k v L WL) (.node ri rk rv WR RR),
              ?_, ?_, ?_, Or.inr ⟨?_, ?_, by omega⟩⟩
            · rw [hcoreC1]
              refine ⟨hout2.rep, hout2.hacc, ?_, hout2.perm.trans hPermTop, ?_,
                hout2.len.trans (hlen1.trans hlen0),
                hout2.alloc.trans (halloc1.trans hout0.alloc), hout2.nok⟩
              · refine hout2.kvs.trans ?_
                show L.kvs ++ (k, v) ::
                    (ATree.node wi wk wv WL (.node ri rk rv WR RR)).kvs =
                  L.kvs ++ (k, v) ::
                    (ATree.node ri rk rv (.node wi wk wv WL WR) RR).kvs
                rw [hout0.kvs]
              · intro j hj1 hj2 hjmem
                have hjnc : j ≠ c := by
                  intro hx
                  exact hjmem (hx ▸ List.mem_cons_self _ _)
                have hjnR : j ∉ (ATree.node ri rk rv (.node wi wk wv WL WR) RR).idxs := by
                  intro hx
                  refine hjmem (List.mem_cons_of_mem _ (List.mem_append_right _ hx))
                have hjtop : j ∉ (ATree.node c k v L
                    (.node wi wk wv WL (.node ri rk rv WR RR))).idxs := by
                  intro hx
                  exact hjmem (hPermTop.mem_iff.mp hx)
                rw [hout2.frame j hj1 hj2 hjtop, hframe1 j hj1 hj2 hjnc,
                  hout0.frame j hj1 hj2 hjnR]
            · refine ⟨?_, ⟨?_, havlL, havlWL⟩, ⟨?_, havlWR, havlRR⟩⟩
              · show max (max L.depth1 WL.depth1 + 1) (max WR.depth1 RR.depth1 + 1) ≤
                  min (max L.depth1 WL.depth1 + 1) (max WR.depth1 RR.depth1 + 1) + 1
                omega
              · show max L.depth1 WL.depth1 ≤ min L.depth1 WL.depth1 + 1
                omega
              · show max WR.depth1 RR.depth1 ≤ min WR.depth1 RR.depth1 + 1
                omega
            · show wi ≠ 0
              rw [hjw]
              exact hnew
            · rw [hcoreC1, hfst2]
              rfl
            · show max (max L.depth1 WL.depth1 + 1) (max WR.depth1 RR.depth1 + 1) + 1 =
                  max L.depth1
                    (ATree.node ri rk rv (.node wi wk wv WL WR) RR).depth1 ∨
                max (max L.depth1 WL.depth1 + 1) (max WR.depth1 RR.depth1 + 1) + 1 =
                  max L.depth1
                    (ATree.node ri rk rv (.node wi wk wv WL WR) RR).depth1 + 1
              rw [hdepths]
              omega
        · have hcoreC2 : rebalanceCore s c =
              (some ((s.leftRotate c).1), (s.leftRotate c).2) := by
            rw [hcore, hbf, if_neg h1, if_pos h2, if_neg hrb]
          have hrotsim := leftRotate_sim hok hrep hnd haccL haccR
            (by show max L.depth1 (max RL.depth1 RR.depth1 + 1) + 1 ≤ 127; omega)
          obtain ⟨hfst, hout⟩ := hrotsim
          rw [hrbf] at hrb
          refine ⟨.node ri rk rv (.node c k v L RL) RR, ?_, ?_, ?_,
          Or.inr ⟨?_, ?_, by omega⟩⟩
          · rw [hcoreC2]
            exact hout
          · refine ⟨?_, ⟨?_, havlL, havlRL⟩, havlRR⟩
            · show max (max L.depth1 RL.depth1 + 1) RR.depth1 ≤
                min (max L.depth1 RL.depth1 + 1) RR.depth1 + 1
              omega
            · show max L.depth1 RL.depth1 ≤ min L.depth1 RL.depth1 + 1
              omega
          · show ri ≠ 0
            rw [hji2]
            exact hne2
          · rw [hcoreC2, hfst]
            rfl
          · show max (max L.depth1 RL.depth1 + 1) RR.depth1 + 1 =
                max L.depth1 (ATree.node ri rk rv RL RR).depth1 ∨
              max (max L.depth1 RL.depth1 + 1) RR.depth1 + 1 =
                max L.depth1 (ATree.node ri rk rv RL RR).depth1 + 1
            rw [hRd]
            omega
    · have hA : rebalanceCore s c = (none, s.updateHeight c) := by
        rw [hcore, hbf, if_neg h1, if_neg h2]
      refine ⟨.node c k v L R, ?_, ⟨by omega, havlL, havlR⟩, by show c ≠ 0; omega,
        Or.inl ⟨by rw [hA], rfl, rfl, by omega⟩⟩
      rw [hA]
      have hc255 : c ≤ 255 := hle.trans hL255
      refine ⟨RepTree_updateHeight hrep hok (by omega) hc255, ?_, rfl, List.Perm.refl _, ?_,
        updateHeight_len s c, updateHeight_alloc s c, updateHeight_nok hok c⟩
      · refine ⟨?_, ?_, ?_⟩
        · rw [updateHeight_at hok (by omega) hle,
            U8Node.getRegister_setRegister_same _ _ _
              (by rw [regLen_getNodeL hok]; decide),
            heightCalc_eq hl hr haccL haccR, Nat.mod_eq_of_lt (by omega)]
        · refine hAcc_congr haccL fun j hj => ?_
          have hb := hl.bounds j hj
          exact congrArg (fun n => n.getRegister .height)
            (updateHeight_frame hok c hb.1 (by omega) (fun hx => hcL (hx ▸ hj)) (by omega) hc255)
        · refine hAcc_congr haccR fun j hj => ?_
          have hb := hr.bounds j hj
          exact congrArg (fun n => n.getRegister .height)
            (updateHeight_frame hok c hb.1 (by omega) (fun hx => hcR (hx ▸ hj)) (by omega) hc255)
      · intro j hj1 hj2 hjmem
        refine updateHeight_frame hok c hj1 hj2 (fun hx => hjmem ?_) (by omega) hc255
        rw [hx]
        exact List.mem_cons_self _ _

/-! ### Rebalance fold machinery -/

theorem rebalance_nil (s : TreeState) : s.rebalance [] = s := rfl

theorem rebalance_append_single (s : TreeState) (p1 : List Ancestor) (e : Ancestor) :
    s.rebalance (p1 ++ [e]) = (rebalanceStep s e).rebalance p1 := by
  show (p1 ++ [e]).reverse.foldl rebalanceStep s = p1.reverse.foldl rebalanceStep (rebalanceStep s e)
  rw [List.reverse_append]
  rfl

theorem rebalanceStep_none {s : TreeState} {c : Nat} (pe : Option Nat) (be : Option Register)
    (h : (rebalanceCore s c).1 = none) :
    rebalanceStep s (pe, be, c) = (rebalanceCore s c).2 := by
  unfold rebalanceStep
  show (match rebalanceCore s c with
    | (some index, s2) =>
      match pe with
      | some p => s2.updateChild p ((be.getD .left)) index
      | none => ((s2.setF .root index).updateHeight index)
    | (none, s2) => s2) = (rebalanceCore s c).2
  rw [show rebalanceCore s c = (none, (rebalanceCore s c).2) from Prod.ext h rfl]

theorem rebalanceStep_some_parent {s : TreeState} {c i : Nat} (p : Nat) (b : Register)
    (h : (rebalanceCore s c).1 = some i) :
    rebalanceStep s (some p, some b, c) = (rebalanceCore s c).2.updateChild p b i := by
  unfold rebalanceStep
  show (match rebalanceCore s c with
    | (some index, s2) => s2.updateChild p (((some b).getD .left)) index
    | (none, s2) => s2) = (rebalanceCore s c).2.updateChild p b i
  rw [show rebalanceCore s c = (some i, (rebalanceCore s c).2) from Prod.ext h rfl]
  rfl

theorem rebalanceStep_some_root {s : TreeState} {c i : Nat} (be : Option Register)
    (h : (rebalanceCore s c).1 = some i) :
    rebalanceStep s (none, be, c) =
      (((rebalanceCore s c).2.setF .root i).updateHeight i) := by
  unfold rebalanceStep
  show (match rebalanceCore s c with
    | (some index, s2) => ((s2.setF .root index).updateHeight index)
    | (none, s2) => s2) = (((rebalanceCore s c).2.setF .root i).updateHeight i)
  rw [show rebalanceCore s c = (some i, (rebalanceCore s c).2) from Prod.ext h rfl]

theorem RepCtxI.branches {ns : List U8Node} {root : Nat} {zs : List CtxE} {c : Nat}
    (h : RepCtxI ns root zs c) : ∀ z ∈ zs, z.branch = .left ∨ z.branch = .right := by
  induction h with
  | nil => intro z hz; cases hz
  | cons hne hle hbr hk hv hsib hreg htail ih =>
    intro z hz
    rcases List.mem_cons.mp hz with hz | hz
    · subst hz; exact hbr
    · exact ih z hz

theorem assemble_idxs_perm {z : CtxE} (hb : z.branch = .left ∨ z.branch = .right) (t : ATree) :
    (z.assemble t).idxs.Perm (z.idx :: (t.idxs ++ z.sib.idxs)) := by
  obtain ⟨b, i, k, v, sib⟩ := z
  rcases hb with hb | hb
  · cases hb
    exact List.Perm.refl _
  · cases hb
    show (ATree.node i k v sib t).idxs.Perm (i :: (t.idxs ++ sib.idxs))
    show (i :: (sib.idxs ++ t.idxs)).Perm (i :: (t.idxs ++ sib.idxs))
    exact (List.perm_append_comm).cons i

theorem plugI_idxs_perm : ∀ (zs : List CtxE) (t : ATree),
    (∀ z ∈ zs, z.branch = .left ∨ z.branch = .right) →
    (plugI zs t).idxs.Perm (t.idxs ++ ctxIdxs zs)
  | [], t, _ => by simp [plugI, ctxIdxs]
  | z :: zs, t, hb => by
    have h1 := plugI_idxs_perm zs (z.assemble t) (fun w hw => hb w (List.mem_cons_of_mem _ hw))
    refine h1.trans ?_
    have h2 := assemble_idxs_perm (hb z (List.mem_cons_self _ _)) t
    refine (h2.append (List.Perm.refl (ctxIdxs zs))).trans ?_
    show ((z.idx :: (t.idxs ++ z.sib.idxs)) ++ ctxIdxs zs).Perm
      (t.idxs ++ (z.idx :: (z.sib.idxs ++ ctxIdxs zs)))
    rw [List.cons_append, List.append_assoc]
    exact List.perm_middle.symm

theorem assemble_kvs_congr {z : CtxE} {t1 t2 : ATree} (h : t1.kvs = t2.kvs) :
    (z.assemble t1).kvs = (z.assemble t2).kvs := by
  obtain ⟨b, i, k, v, sib⟩ := z
  cases b
  · show t1.kvs ++ (k, v) :: sib.kvs = t2.kvs ++ (k, v) :: sib.kvs
    rw [h]
  · show sib.kvs ++ (k, v) :: t1.kvs = sib.kvs ++ (k, v) :: t2.kvs
    rw [h]
  · exact h

theorem plugI_kvs_congr : ∀ (zs : List CtxE) {t1 t2 : ATree}, t1.kvs = t2.kvs →
    (plugI zs t1).kvs = (plugI zs t2).kvs
  | [], _, _, h => h
  | _ :: zs, _, _, h => plugI_kvs_congr zs (assemble_kvs_congr h)

theorem assemble_idxs_congr {z : CtxE} {t1 t2 : ATree} (h : t1.idxs.Perm t2.idxs) :
    (z.assemble t1).idxs.Perm (z.assemble t2).idxs := by
  obtain ⟨b, i, k, v, sib⟩ := z
  cases b
  · show (i :: (t1.idxs ++ sib.idxs)).Perm (i :: (t2.idxs ++ sib.idxs))
    exact (h.append (List.Perm.refl _)).cons i
  · show (i :: (sib.idxs ++ t1.idxs)).Perm (i :: (sib.idxs ++ t2.idxs))
    exact ((List.Perm.refl _).append h).cons i
  · exact h

theorem plugI_idxs_congr : ∀ (zs : List CtxE) {t1 t2 : ATree}, t1.idxs.Perm t2.idxs →
    (plugI zs t1).idxs.Perm (plugI zs t2).idxs
  | [], _, _, h => h
  | _ :: zs, _, _, h => plugI_idxs_congr zs (assemble_idxs_congr h)

theorem RepCtxI.ctxCongr {ns ns' : List U8Node} {root : Nat} {zs : List CtxE} {c : Nat}
    (h : RepCtxI ns root zs c) (hlen : ns'.length = ns.length)
    (hag : ∀ j ∈ ctxIdxs zs, getNodeL ns' j = getNodeL ns j) :
    RepCtxI ns' root zs c := by
  induction h with
  | nil => exact .nil
  | cons hne hle hbr hk hv hsib hreg htail ih =>
    rename_i i k v b sib zs' c'
    have hagi : getNodeL ns' i = getNodeL ns i := hag i (List.mem_cons_self _ _)
    refine RepCtxI.cons hne (hlen ▸ hle) hbr (by rw [hagi]; exact hk)
      (by rw [hagi]; exact hv) ?_ (by rw [hagi]; exact hreg) ?_
    · rw [hagi]
      refine hsib.congr hlen fun j hj => ?_
      rw [hag j (List.mem_cons_of_mem _ (List.mem_append_left _ hj))]
    · exact ih fun j hj => hag j (List.mem_cons_of_mem _ (List.mem_append_right _ hj))

theorem CtxBal_congr : ∀ {zs : List CtxE} {olds : List Nat} {c0 : Nat} {ns ns' : List U8Node},
    CtxBal ns zs olds c0 →
    (∀ j ∈ ctxIdxs zs,
      (getNodeL ns' j).getRegister .height = (getNodeL ns j).getRegister .height) →
    CtxBal ns' zs olds c0
  | [], [], _, _, _, h, _ => h
  | _ :: _, [], _, _, _, h, _ => h.elim
  | [], _ :: _, _, _, _, h, _ => h.elim
  | z :: zs, p :: olds, c0, ns, ns', h, hag => by
    obtain ⟨h1, h2, h3, h4, h5, h6⟩ := h
    refine ⟨hAcc_congr h1
      (fun j hj => hag j (List.mem_cons_of_mem _ (List.mem_append_left _ hj))),
      h2, h3, h4, h5,
      CtxBal_congr h6 (fun j hj => hag j (List.mem_cons_of_mem _ (List.mem_append_right _ hj)))⟩

theorem TreeState.getF_setF_root_ne (s : TreeState) (a : Nat) {f : AField} (hf : f ≠ .root) :
    (s.setF .root a).getF f = s.getF f := by
  refine s.getF_setF_ne .root f a ?_
  cases f with
  | root => exact absurd rfl hf
  | size => decide
  | capacity => decide
  | freeListHead => decide
  | sequence => decide

theorem RepCtxI.ctx_bounds {ns : List U8Node} {root : Nat} {zs : List CtxE} {c : Nat}
    (h : RepCtxI ns root zs c) : ∀ j ∈ ctxIdxs zs, 1 ≤ j ∧ j ≤ ns.length := by
  induction h with
  | nil => intro j hj; cases hj
  | cons hne hle hbr hk hv hsib hreg htail ih =>
    intro j hj
    rcases List.mem_cons.mp hj with hj | hj
    · subst hj
      exact ⟨by omega, hle⟩
    · rcases List.mem_append.mp hj with hj | hj
      · exact hsib.bounds j hj
      · exact ih j hj

/-- Simulation of the whole `rebalance` fold over the path recorded for a
context `zs` with hole `c`: from a locally-repaired subtree, the fold
produces an accurately-cached AVL tree holding the same key-value pairs,
with the root field updated and everything outside untouched. -/
theorem rebalance_sim {root : Nat} {zs : List CtxE} {olds : List Nat} {s : TreeState}
    {c k v c0 : Nat} {L R : ATree}
    (hok : NodesOk s.nodes)
    (h8 : s.allocator.fields.length = 8)
    (hrep : RepTree s.nodes c (.node c k v L R))
    (hctx : RepCtxI s.nodes root zs c)
    (hroot : s.getF .root = root)
    (hnd2 : ((ATree.node c k v L R).idxs ++ ctxIdxs zs).Nodup)
    (haccL : hAcc s.nodes L) (haccR : hAcc s.nodes R)
    (havlL : L.AVL) (havlR : R.AVL)
    (hcb : CtxBal s.nodes zs olds c0)
    (holds : ∀ x ∈ olds, x ≤ 125) (hc0 : c0 ≤ 125)
    (hdc1 : (ATree.node c k v L R).depth1 ≤ c0 + 1)
    (hdc2 : c0 ≤ (ATree.node c k v L R).depth1 + 1)
    (hb1 : L.depth1 ≤ R.depth1 + 2) (hb2 : R.depth1 ≤ L.depth1 + 2)
    (hbal3 : (L.depth1 ≤ R.depth1 + 1 ∧ R.depth1 ≤ L.depth1 + 1) ∨
      c0 ≤ (ATree.node c k v L R).depth1) :
    ∃ T', RepTree (s.rebalance (pathFor zs c)).nodes T'.rootIdx T' ∧
      hAcc (s.rebalance (pathFor zs c)).nodes T' ∧ T'.AVL ∧ T'.rootIdx ≠ 0 ∧
      T'.kvs = (plugI zs (.node c k v L R)).kvs ∧
      T'.idxs.Perm ((ATree.node c k v L R).idxs ++ ctxIdxs zs) ∧
      (s.rebalance (pathFor zs c)).getF .root = T'.rootIdx ∧
      (∀ f, f ≠ AField.root → (s.rebalance (pathFor zs c)).getF f = s.getF f) ∧
      (∀ j, 1 ≤ j → j ≤ 255 → j ∉ (ATree.node c k v L R).idxs → j ∉ ctxIdxs zs →
        getNodeL (s.rebalance (pathFor zs c)).nodes j = getNodeL s.nodes j) ∧
      (s.rebalance (pathFor zs c)).nodes.length = s.nodes.length ∧
      NodesOk (s.rebalance (pathFor zs c)).nodes ∧
      (s.rebalance (pathFor zs c)).allocator.fields.length = 8 := by
  induction zs generalizing s c k v c0 L R olds with
  | nil =>
    cases hctx
    have hnd : (ATree.node root k v L R).idxs.Nodup := (List.nodup_append.mp hnd2).1
    have hnode_d : (ATree.node root k v L R).depth1 = max L.depth1 R.depth1 + 1 := rfl
    obtain ⟨T', hrout, havlT, hne0, hdisj⟩ := rebalanceCore_sim hok hrep hnd haccL haccR
      havlL havlR (by omega) (by omega) ⟨hb1, hb2⟩
    have hpath : s.rebalance (pathFor [] root) = rebalanceStep s (none, none, root) := rfl
    rcases hdisj with ⟨hfst, hrc, hdeq, hbalc⟩ | ⟨hfst, hdd, himb⟩
    · rw [hpath, rebalanceStep_none none none hfst]
      refine ⟨T', hrout.rep, hrout.hacc, havlT, hne0, hrout.kvs, ?_, ?_, ?_, ?_,
        hrout.len, hrout.nok, ?_⟩
      · show T'.idxs.Perm ((ATree.node root k v L R).idxs ++ [])
        rw [List.append_nil]
        exact hrout.perm
      · show (rebalanceCore s root).2.allocator.getField .root = T'.rootIdx
        rw [hrout.alloc, hrc]
        exact hroot
      · intro f hf
        show (rebalanceCore s root).2.allocator.getField f = s.allocator.getField f
        rw [hrout.alloc]
      · intro j hj1 hj2 hjn hjc
        exact hrout.frame j hj1 hj2 hjn
      · rw [hrout.alloc]
        exact h8
    · cases T' with
      | leaf => exact absurd rfl hne0
      | node a ak av AL AR =>
        simp only [ATree.rootIdx] at hfst hne0
        rw [hpath, rebalanceStep_some_root none hfst]
        set s2 : TreeState := (rebalanceCore s root).2 with hs2
        set s3 : TreeState := s2.setF .root a with hs3
        have hok2 : NodesOk s2.nodes := hrout.nok
        have hlen2 : s2.nodes.length ≤ 255 := hok2.1
        have hok3 : NodesOk s3.nodes := hok2
        have ha1 : 1 ≤ a := by omega
        have ha255 : a ≤ 255 := rootIdx_le_255 hrout.rep hok2.1
        have ha2len : a ≤ s2.nodes.length :=
          (hrout.rep.bounds a (List.mem_cons_self _ _)).2
        have hrep3 : RepTree s3.nodes a (.node a ak av AL AR) := hrout.rep
        obtain ⟨-, -, -, hak, hav, halreg, harreg, hal, har⟩ := hrep3.node_elim
        have haccT : hAcc s3.nodes (.node a ak av AL AR) := hrout.hacc
        obtain ⟨hha, haccAL, haccAR⟩ := haccT
        have hALd : (ATree.node a ak av AL AR).depth1 = max AL.depth1 AR.depth1 + 1 := rfl
        have hmax255 : max AL.depth1 AR.depth1 ≤ 255 := by
          rcases hdd with hdd | hdd <;> omega
        refine ⟨.node a ak av AL AR,
          RepTree_updateHeight hrep3 hok3 ha1 ha255, ?_, havlT, hne0, hrout.kvs, ?_,
          ?_, ?_, ?_, ?_, updateHeight_nok hok3 a, ?_⟩
        · refine hAcc_congr hrout.hacc fun j hj => ?_
          by_cases hja : j = a
          · subst hja
            rw [updateHeight_at hok3 ha1 ha2len,
              U8Node.getRegister_setRegister_same _ _ _
                (by rw [regLen_getNodeL hok3]; decide),
              heightCalc_eq hal har haccAL haccAR, Nat.mod_eq_of_lt (by omega)]
            exact hha.symm
          · have hb := hrout.rep.bounds j hj
            exact congrArg (fun n => n.getRegister .height)
              (updateHeight_frame hok3 a hb.1 (by omega) hja ha1 ha255)
        · show (ATree.node a ak av AL AR).idxs.Perm ((ATree.node root k v L R).idxs ++ [])
          rw [List.append_nil]
          exact hrout.perm
        · show (s3.updateHeight a).allocator.getField .root = a
          rw [updateHeight_alloc]
          show (s2.setF .root a).getF .root = a
          rw [s2.getF_setF_same .root a (by rw [hrout.alloc]; exact h8),
            Nat.mod_eq_of_lt (by omega)]
        · intro f hf
          show (s3.updateHeight a).allocator.getField f = s.allocator.getField f
          rw [updateHeight_alloc]
          show (s2.setF .root a).getF f = s.getF f
          rw [s2.getF_setF_root_ne a hf]
          show s2.allocator.getField f = s.allocator.getField f
          rw [hrout.alloc]
        · intro j hj1 hj2 hjn hjc
          have hja : j ≠ a := by
            intro hx
            subst hx
            exact hjn (hrout.perm.mem_iff.mp (List.mem_cons_self _ _))
          rw [updateHeight_frame hok3 a hj1 hj2 hja ha1 ha255]
          exact hrout.frame j hj1 hj2 hjn
        · rw [updateHeight_len]
          exact hrout.len
        · rw [updateHeight_alloc]
          show (s2.allocator.setField .root a).fields.length = 8
          rw [U8Allocator.length_setField, hrout.alloc]
          exact h8
  | cons z zs ih =>
    obtain ⟨b, p, zk, zv, S⟩ := z
    cases hctx with
    | cons hpne hple hbr hzk hzv hsib hreg hctx' =>
    cases olds with
    | nil => exact hcb.elim
    | cons p0 olds' =>
    obtain ⟨hsacc, hsavl, hp0eq, hcle, hsle, hcb'⟩ := hcb
    have hsacc : hAcc s.nodes S := hsacc
    have hsavl : S.AVL := hsavl
    have hp0eq : max c0 S.depth1 + 1 = p0 := hp0eq
    have hcle : c0 ≤ S.depth1 + 1 := hcle
    have hsle : S.depth1 ≤ c0 + 1 := hsle
    rw [show ctxIdxs (⟨b, p, zk, zv, S⟩ :: zs) = p :: (S.idxs ++ ctxIdxs zs) from rfl] at hnd2
    obtain ⟨hndT, hndrest, hdisjTC⟩ := List.nodup_append.mp hnd2
    obtain ⟨hpSC, hndSC⟩ := List.nodup_cons.mp hndrest
    have hpS : p ∉ S.idxs := fun hx => hpSC (List.mem_append_left _ hx)
    have hpC : p ∉ ctxIdxs zs := fun hx => hpSC (List.mem_append_right _ hx)
    have hTSdisj : ∀ j ∈ (ATree.node c k v L R).idxs, j ∉ S.idxs :=
      fun j hj hx => hdisjTC hj (List.mem_cons_of_mem _ (List.mem_append_left _ hx))
    have hTCdisj : ∀ j ∈ (ATree.node c k v L R).idxs, j ∉ ctxIdxs zs :=
      fun j hj hx => hdisjTC hj (List.mem_cons_of_mem _ (List.mem_append_right _ hx))
    have hpT : p ∉ (ATree.node c k v L R).idxs :=
      fun hx => hdisjTC hx (List.mem_cons_self _ _)
    have hnode_d : (ATree.node c k v L R).depth1 = max L.depth1 R.depth1 + 1 := rfl
    have hp0le : p0 ≤ 125 := holds p0 (List.mem_cons_self _ _)
    obtain ⟨T', hrout, havlT, hne0, hdisjC⟩ := rebalanceCore_sim hok hrep hndT haccL haccR
      havlL havlR (by omega) (by omega) ⟨hb1, hb2⟩
    have hpath : s.rebalance (pathFor (⟨b, p, zk, zv, S⟩ :: zs) c) =
        (rebalanceStep s (some p, some b, c)).rebalance (pathFor zs p) := by
      show s.rebalance (pathFor zs p ++ [(some p, some b, c)]) = _
      exact rebalance_append_single s _ _
    set s2 : TreeState := (rebalanceCore s c).2 with hs2
    have hok2 : NodesOk s2.nodes := hrout.nok
    have hlen2 : s2.nodes.length = s.nodes.length := hrout.len
    have hL255 : s.nodes.length ≤ 255 := hok.1
    have hp1 : 1 ≤ p := by omega
    have hp255 : p ≤ 255 := by omega
    have hgp2 : getNodeL s2.nodes p = getNodeL s.nodes p := hrout.frame p hp1 hp255 hpT
    have hframeS : ∀ j ∈ S.idxs, getNodeL s2.nodes j = getNodeL s.nodes j := by
      intro j hj
      have hbnd := hsib.bounds j hj
      exact hrout.frame j hbnd.1 (by omega) (fun hx => hTSdisj j hx hj)
    have hS2 : RepTree s2.nodes ((getNodeL s2.nodes p).getRegister b.other) S := by
      rw [hgp2]
      refine hsib.congr hlen2 fun j hj => ?_
      rw [hframeS j hj]
    have haccS2 : hAcc s2.nodes S :=
      hAcc_congr hsacc fun j hj => congrArg (fun n => n.getRegister .height) (hframeS j hj)
    have hcbounds := hctx'.ctx_bounds
    have hframeC : ∀ j ∈ ctxIdxs zs, getNodeL s2.nodes j = getNodeL s.nodes j := by
      intro j hj
      have hbnd := hcbounds j hj
      exact hrout.frame j hbnd.1 (by omega) (fun hx => hTCdisj j hx hj)
    have hctx2 : RepCtxI s2.nodes root zs p := hctx'.ctxCongr hlen2 hframeC
    have hcb2 : CtxBal s2.nodes zs olds' p0 :=
      CtxBal_congr hcb' fun j hj => congrArg (fun n => n.getRegister .height) (hframeC j hj)
    have hroot2 : s2.getF .root = root := by
      show s2.allocator.getField .root = root
      rw [hrout.alloc]
      exact hroot
    have h8_2 : s2.allocator.fields.length = 8 := by
      rw [hrout.alloc]
      exact h8
    have hTd255 : T'.rootIdx ≤ 255 := rootIdx_le_255 hrout.rep hok2.1
    have hpT' : p ∉ T'.idxs := fun hx => hpT (hrout.perm.mem_iff.mp hx)
    rcases hdisjC with ⟨hfstN, hrc, hdeq, hbalc⟩ | ⟨hfstS, hdd, himb⟩
    · rw [hpath, rebalanceStep_none (some p) (some b) hfstN, ← hs2]
      rcases hbr with hbb | hbb
      · subst hbb
        have hregL : (getNodeL s2.nodes p).getRegister .left = T'.rootIdx := by
          rw [hgp2, hreg, hrc]
        have hrepT'2 : RepTree s2.nodes ((getNodeL s2.nodes p).getRegister .left) T' := by
          rw [hregL]
          exact hrout.rep
        have hrep2 : RepTree s2.nodes p (ATree.node p zk zv T' S) :=
          RepTree.node hpne (by omega) (by rw [hgp2]; exact hzk) (by rw [hgp2]; exact hzv)
            hrepT'2 hS2
        have hpermT'' : ((ATree.node p zk zv T' S).idxs ++ ctxIdxs zs).Perm
            ((ATree.node c k v L R).idxs ++ (p :: (S.idxs ++ ctxIdxs zs))) := by
          show (p :: (T'.idxs ++ S.idxs ++ ctxIdxs zs)).Perm
            ((ATree.node c k v L R).idxs ++ p :: (S.idxs ++ ctxIdxs zs))
          refine List.Perm.trans ?_ List.perm_middle.symm
          refine List.Perm.cons p ?_
          rw [List.append_assoc]
          exact hrout.perm.append (List.Perm.refl _)
        have hnd2' : ((ATree.node p zk zv T' S).idxs ++ ctxIdxs zs).Nodup :=
          (hpermT''.nodup_iff).mpr hnd2
        have hT''d : (ATree.node p zk zv T' S).depth1 = max T'.depth1 S.depth1 + 1 := rfl
        obtain ⟨T3, ih1, ih2, ih3, ih4, ih5, ih6, ih7, ih8, ih9, ih10, ih11, ih12⟩ :=
          ih hok2 h8_2 hrep2 hctx2 hroot2 hnd2' hrout.hacc haccS2 havlT hsavl hcb2
            (fun x hx => holds x (List.mem_cons_of_mem _ hx)) hp0le
            (by omega) (by omega) (by omega) (by omega) (by omega)
        refine ⟨T3, ih1, ih2, ih3, ih4, ?_, ?_, ih7, ?_, ?_, ih10.trans hlen2, ih11, ih12⟩
        · refine ih5.trans (plugI_kvs_congr zs ?_)
          show T'.kvs ++ (zk, zv) :: S.kvs = (ATree.node c k v L R).kvs ++ (zk, zv) :: S.kvs
          rw [hrout.kvs]
        · exact ih6.trans hpermT''
        · intro f hf
          rw [ih8 f hf]
          show s2.allocator.getField f = s.allocator.getField f
          rw [hrout.alloc]
        · intro j hj1 hj2 hjT hjC
          have hjp : j ≠ p := fun hx => hjC (by rw [hx]; exact List.mem_cons_self _ _)
          have hjS : j ∉ S.idxs := fun hx =>
            hjC (List.mem_cons_of_mem _ (List.mem_append_left _ hx))
          have hjC' : j ∉ ctxIdxs zs := fun hx =>
            hjC (List.mem_cons_of_mem _ (List.mem_append_right _ hx))
          have hjT' : j ∉ (ATree.node p zk zv T' S).idxs := by
            intro hx
            rcases List.mem_cons.mp hx with hx | hx
            · exact hjp hx
            · rcases List.mem_append.mp hx with hx | hx
              · exact hjT (hrout.perm.mem_iff.mp hx)
              · exact hjS hx
          rw [ih9 j hj1 hj2 hjT' hjC']
          exact hrout.frame j hj1 hj2 hjT
      · subst hbb
        have hregR : (getNodeL s2.nodes p).getRegister .right = T'.rootIdx := by
          rw [hgp2, hreg, hrc]
        have hrepT'2 : RepTree s2.nodes ((getNodeL s2.nodes p).getRegister .right) T' := by
          rw [hregR]
          exact hrout.rep
        have hrep2 : RepTree s2.nodes p (ATree.node p zk zv S T') :=
          RepTree.node hpne (by omega) (by rw [hgp2]; exact hzk) (by rw [hgp2]; exact hzv)
            hS2 hrepT'2
        have hpermT'' : ((ATree.node p zk zv S T').idxs ++ ctxIdxs zs).Perm
            ((ATree.node c k v L R).idxs ++ (p :: (S.idxs ++ ctxIdxs zs))) := by
          show (p :: (S.idxs ++ T'.idxs ++ ctxIdxs zs)).Perm
            ((ATree.node c k v L R).idxs ++ p :: (S.idxs ++ ctxIdxs zs))
          refine List.Perm.trans ?_ List.perm_middle.symm
          refine List.Perm.cons p ?_
          refine List.Perm.trans
            ((List.perm_append_comm.trans
              (hrout.perm.append (List.Perm.refl _))).append (List.Perm.refl _)) ?_
          rw [List.append_assoc]
        have hnd2' : ((ATree.node p zk zv S T').idxs ++ ctxIdxs zs).Nodup :=
          (hpermT''.nodup_iff).mpr hnd2
        have hT''d : (ATree.node p zk zv S T').depth1 = max S.depth1 T'.depth1 + 1 := rfl
        obtain ⟨T3, ih1, ih2, ih3, ih4, ih5, ih6, ih7, ih8, ih9, ih10, ih11, ih12⟩ :=
          ih hok2 h8_2 hrep2 hctx2 hroot2 hnd2' haccS2 hrout.hacc hsavl havlT hcb2
            (fun x hx => holds x (List.mem_cons_of_mem _ hx)) hp0le
            (by omega) (by omega) (by omega) (by omega) (by omega)
        refine ⟨T3, ih1, ih2, ih3, ih4, ?_, ?_, ih7, ?_, ?_, ih10.trans hlen2, ih11, ih12⟩
        · refine ih5.trans (plugI_kvs_congr zs ?_)
          show S.kvs ++ (zk, zv) :: T'.kvs = S.kvs ++ (zk, zv) :: (ATree.node c k v L R).kvs
          rw [hrout.kvs]
        · exact ih6.trans hpermT''
        · intro f hf
          rw [ih8 f hf]
          show s2.allocator.getField f = s.allocator.getField f
          rw [hrout.alloc]
        · intro j hj1 hj2 hjT hjC
          have hjp : j ≠ p := fun hx => hjC (by rw [hx]; exact List.mem_cons_self _ _)
          have hjS : j ∉ S.idxs := fun hx =>
            hjC (List.mem_cons_of_mem _ (List.mem_append_left _ hx))
          have hjC' : j ∉ ctxIdxs zs := fun hx =>
            hjC (List.mem_cons_of_mem _ (List.mem_append_right _ hx))
          have hjT' : j ∉ (ATree.node p zk zv S T').idxs := by
            intro hx
            rcases List.mem_cons.mp hx with hx | hx
            · exact hjp hx
            · rcases List.mem_append.mp hx with hx | hx
              · exact hjS hx
              · exact hjT (hrout.perm.mem_iff.mp hx)
          rw [ih9 j hj1 hj2 hjT' hjC']
          exact hrout.frame j hj1 hj2 hjT
    · rcases hbr with hbb | hbb
      · subst hbb
        rw [hpath, rebalanceStep_some_parent p .left hfstS, ← hs2]
        have hS2r : RepTree s2.nodes ((getNodeL s2.nodes p).getRegister .right) S := hS2
        have hstep := updateChild_sim_left hok2 hp1 (by omega) hrout.rep hS2r hTd255 hpT' hpS
          hrout.hacc haccS2 (by omega)
        rw [hgp2, hzk, hzv] at hstep
        obtain ⟨hrep3, hacc3, hframe3, halloc3, hlen3, hnok3⟩ := hstep
        set s3 : TreeState := s2.updateChild p .left T'.rootIdx with hs3
        have hok3 : NodesOk s3.nodes := hnok3
        have hlen3' : s3.nodes.length = s.nodes.length := hlen3.trans hlen2
        have h8_3 : s3.allocator.fields.length = 8 := by
          rw [halloc3]
          exact h8_2
        have hroot3 : s3.getF .root = root := by
          show s3.allocator.getField .root = root
          rw [halloc3]
          exact hroot2
        have hframeC3 : ∀ j ∈ ctxIdxs zs, getNodeL s3.nodes j = getNodeL s.nodes j := by
          intro j hj
          have hbnd := hcbounds j hj
          rw [hframe3 j hbnd.1 (by omega) (fun hx => hpC (hx ▸ hj))]
          exact hframeC j hj
        have hctx3 : RepCtxI s3.nodes root zs p := hctx'.ctxCongr hlen3' hframeC3
        have hcb3 : CtxBal s3.nodes zs olds' p0 :=
          CtxBal_congr hcb' fun j hj => congrArg (fun n => n.getRegister .height) (hframeC3 j hj)
        have hpermT'' : ((ATree.node p zk zv T' S).idxs ++ ctxIdxs zs).Perm
            ((ATree.node c k v L R).idxs ++ (p :: (S.idxs ++ ctxIdxs zs))) := by
          show (p :: (T'.idxs ++ S.idxs ++ ctxIdxs zs)).Perm
            ((ATree.node c k v L R).idxs ++ p :: (S.idxs ++ ctxIdxs zs))
          refine List.Perm.trans ?_ List.perm_middle.symm
          refine List.Perm.cons p ?_
          rw [List.append_assoc]
          exact hrout.perm.append (List.Perm.refl _)
        have hnd3' : ((ATree.node p zk zv T' S).idxs ++ ctxIdxs zs).Nodup :=
          (hpermT''.nodup_iff).mpr hnd2
        have hT''d : (ATree.node p zk zv T' S).depth1 = max T'.depth1 S.depth1 + 1 := rfl
        obtain ⟨T3, ih1, ih2, ih3, ih4, ih5, ih6, ih7, ih8, ih9, ih10, ih11, ih12⟩ :=
          ih hok3 h8_3 hrep3 hctx3 hroot3 hnd3' hacc3.2.1 hacc3.2.2 havlT hsavl hcb3
            (fun x hx => holds x (List.mem_cons_of_mem _ hx)) hp0le
            (by omega) (by omega) (by omega) (by omega) (by omega)
        refine ⟨T3, ih1, ih2, ih3, ih4, ?_, ?_, ih7, ?_, ?_, ih10.trans hlen3', ih11, ih12⟩
        · refine ih5.trans (plugI_kvs_congr zs ?_)
          show T'.kvs ++ (zk, zv) :: S.kvs = (ATree.node c k v L R).kvs ++ (zk, zv) :: S.kvs
          rw [hrout.kvs]
        · exact ih6.trans hpermT''
        · intro f hf
          rw [ih8 f hf]
          show s3.allocator.getField f = s.allocator.getField f
          rw [halloc3, hrout.alloc]
        · intro j hj1 hj2 hjT hjC
          have hjp : j ≠ p := fun hx => hjC (by rw [hx]; exact List.mem_cons_self _ _)
          have hjS : j ∉ S.idxs := fun hx =>
            hjC (List.mem_cons_of_mem _ (List.mem_append_left _ hx))
          have hjC' : j ∉ ctxIdxs zs := fun hx =>
            hjC (List.mem_cons_of_mem _ (List.mem_append_right _ hx))
          have hjT' : j ∉ (ATree.node p zk zv T' S).idxs := by
            intro hx
            rcases List.mem_cons.mp hx with hx | hx
            · exact hjp hx
            · rcases List.mem_append.mp hx with hx | hx
              · exact hjT (hrout.perm.mem_iff.mp hx)
              · exact hjS hx
          rw [ih9 j hj1 hj2 hjT' hjC', hframe3 j hj1 hj2 hjp]
          exact hrout.frame j hj1 hj2 hjT
      · subst hbb
        rw [hpath, rebalanceStep_some_parent p .right hfstS, ← hs2]
        have hS2l : RepTree s2.nodes ((getNodeL s2.nodes p).getRegister .left) S := hS2
        have hstep := updateChild_sim_right hok2 hp1 (by omega) hrout.rep hS2l hTd255 hpT' hpS
          hrout.hacc haccS2 (by omega)
        rw [hgp2, hzk, hzv] at hstep
        obtain ⟨hrep3, hacc3, hframe3, halloc3, hlen3, hnok3⟩ := hstep
        set s3 : TreeState := s2.updateChild p .right T'.rootIdx with hs3
        have hok3 : NodesOk s3.nodes := hnok3
        have hlen3' : s3.nodes.length = s.nodes.length := hlen3.trans hlen2
        have h8_3 : s3.allocator.fields.length = 8 := by
          rw [halloc3]
          exact h8_2
        have hroot3 : s3.getF .root = root := by
          show s3.allocator.getField .root = root
          rw [halloc3]
          exact hroot2
        have hframeC3 : ∀ j ∈ ctxIdxs zs, getNodeL s3.nodes j = getNodeL s.nodes j := by
          intro j hj
          have hbnd := hcbounds j hj
          rw [hframe3 j hbnd.1 (by omega) (fun hx => hpC (hx ▸ hj))]
          exact hframeC j hj
        have hctx3 : RepCtxI s3.nodes root zs p := hctx'.ctxCongr hlen3' hframeC3
        have hcb3 : CtxBal s3.nodes zs olds' p0 :=
          CtxBal_congr hcb' fun j hj => congrArg (fun n => n.getRegister .height) (hframeC3 j hj)
        have hpermT'' : ((ATree.node p zk zv S T').idxs ++ ctxIdxs zs).Perm
            ((ATree.node c k v L R).idxs ++ (p :: (S.idxs ++ ctxIdxs zs))) := by
          show (p :: (S.idxs ++ T'.idxs ++ ctxIdxs zs)).Perm
            ((ATree.node c k v L R).idxs ++ p :: (S.idxs ++ ctxIdxs zs))
          refine List.Perm.trans ?_ List.perm_middle.symm
          refine List.Perm.cons p ?_
          refine List.Perm.trans
            ((List.perm_append_comm.trans
              (hrout.perm.append (List.Perm.refl _))).append (List.Perm.refl _)) ?_
          rw [List.append_assoc]
        have hnd3' : ((ATree.node p zk zv S T').idxs ++ ctxIdxs zs).Nodup :=
          (hpermT''.nodup_iff).mpr hnd2
        have hT''d : (ATree.node p zk zv S T').depth1 = max S.depth1 T'.depth1 + 1 := rfl
        obtain ⟨T3, ih1, ih2, ih3, ih4, ih5, ih6, ih7, ih8, ih9, ih10, ih11, ih12⟩ :=
          ih hok3 h8_3 hrep3 hctx3 hroot3 hnd3' hacc3.2.1 hacc3.2.2 hsavl havlT hcb3
            (fun x hx => holds x (List.mem_cons_of_mem _ hx)) hp0le
            (by omega) (by omega) (by omega) (by omega) (by omega)
        refine ⟨T3, ih1, ih2, ih3, ih4, ?_, ?_, ih7, ?_, ?_, ih10.trans hlen3', ih11, ih12⟩
        · refine ih5.trans (plugI_kvs_congr zs ?_)
          show S.kvs ++ (zk, zv) :: T'.kvs = S.kvs ++ (zk, zv) :: (ATree.node c k v L R).kvs
          rw [hrout.kvs]
        · exact ih6.trans hpermT''
        · intro f hf
          rw [ih8 f hf]
          show s3.allocator.getField f = s.allocator.getField f
          rw [halloc3, hrout.alloc]
        · intro j hj1 hj2 hjT hjC
          have hjp : j ≠ p := fun hx => hjC (by rw [hx]; exact List.mem_cons_self _ _)
          have hjS : j ∉ S.idxs := fun hx =>
            hjC (List.mem_cons_of_mem _ (List.mem_append_left _ hx))
          have hjC' : j ∉ ctxIdxs zs := fun hx =>
            hjC (List.mem_cons_of_mem _ (List.mem_append_right _ hx))
          have hjT' : j ∉ (ATree.node p zk zv S T').idxs := by
            intro hx
            rcases List.mem_cons.mp hx with hx | hx
            · exact hjp hx
            · rcases List.mem_append.mp hx with hx | hx
              · exact hjS hx
              · exact hjT (hrout.perm.mem_iff.mp hx)
          rw [ih9 j hj1 hj2 hjT' hjC', hframe3 j hj1 hj2 hjp]
          exact hrout.frame j hj1 hj2 hjT

/-! ### Search-tree and inorder-list lemmas -/

theorem ATree.bst_bounds {t : ATree} {lo hi : Option Nat} (h : t.bstB lo hi) :
    ∀ x ∈ t.keys, (∀ b, lo = some b → b < x) ∧ (∀ b, hi = some b → x < b) := by
  induction t generalizing lo hi with
  | leaf => intro x hx; cases hx
  | node i k v l r ihl ihr =>
    obtain ⟨hlo, hhi, hl, hr⟩ := h
    intro x hx
    rcases List.mem_append.mp hx with hx | hx
    · have hb := ihl hl x hx
      exact ⟨hb.1, fun b hbb => lt_trans (hb.2 k rfl) (hhi b hbb)⟩
    · rcases List.mem_cons.mp hx with hx | hx
      · subst hx
        exact ⟨hlo, hhi⟩
      · have hb := ihr hr x hx
        exact ⟨fun b hbb => lt_trans (hlo b hbb) (hb.1 k rfl), hb.2⟩

theorem ATree.bst_pairwise {t : ATree} {lo hi : Option Nat} (h : t.bstB lo hi) :
    t.keys.Pairwise (· < ·) := by
  induction t generalizing lo hi with
  | leaf => exact List.Pairwise.nil
  | node i k v l r ihl ihr =>
    obtain ⟨hlo, hhi, hl, hr⟩ := h
    show (l.keys ++ k :: r.keys).Pairwise (· < ·)
    rw [List.pairwise_append, List.pairwise_cons]
    refine ⟨ihl hl, ⟨fun y hy => (ATree.bst_bounds hr y hy).1 k rfl, ihr hr⟩, ?_⟩
    intro x hx y hy
    have hxk : x < k := (ATree.bst_bounds hl x hx).2 k rfl
    rcases List.mem_cons.mp hy with hy | hy
    · subst hy
      exact hxk
    · exact lt_trans hxk ((ATree.bst_bounds hr y hy).1 k rfl)

theorem ATree.bst_of_pairwise {t : ATree} {lo hi : Option Nat}
    (hp : t.keys.Pairwise (· < ·))
    (hb : ∀ x ∈ t.keys, (∀ b, lo = some b → b < x) ∧ (∀ b, hi = some b → x < b)) :
    t.bstB lo hi := by
  induction t generalizing lo hi with
  | leaf => trivial
  | node i k v l r ihl ihr =>
    have hkeys : (ATree.node i k v l r).keys = l.keys ++ k :: r.keys := rfl
    rw [hkeys] at hp hb
    rw [List.pairwise_append, List.pairwise_cons] at hp
    obtain ⟨hpl, ⟨hkr, hpr⟩, hcross⟩ := hp
    have hkmem : k ∈ l.keys ++ k :: r.keys :=
      List.mem_append_right _ (List.mem_cons_self _ _)
    refine ⟨(hb k hkmem).1, (hb k hkmem).2, ?_, ?_⟩
    · refine ihl hpl ?_
      intro x hx
      refine ⟨(hb x (List.mem_append_left _ hx)).1, ?_⟩
      intro b hbb
      have hbk : b = k := (Option.some.inj hbb).symm
      subst hbk
      exact hcross x hx b (List.mem_cons_self _ _)
    · refine ihr hpr ?_
      intro x hx
      refine ⟨?_,
        fun b hbb => (hb x (List.mem_append_right _ (List.mem_cons_of_mem _ hx))).2 b hbb⟩
      intro b hbb
      have hbk : b = k := (Option.some.inj hbb).symm
      subst hbk
      exact hkr x hx

theorem plugI_kvs_decomp : ∀ (zs : List CtxE), ∃ A B : List (Nat × Nat),
    ∀ t : ATree, (plugI zs t).kvs = A ++ (t.kvs ++ B)
  | [] => ⟨[], [], fun t => by simp [plugI]⟩
  | z :: zs => by
    obtain ⟨A, B, hAB⟩ := plugI_kvs_decomp zs
    obtain ⟨b, i, k, v, sib⟩ := z
    cases b
    · refine ⟨A, (k, v) :: (sib.kvs ++ B), fun t => ?_⟩
      rw [show plugI (⟨Register.left, i, k, v, sib⟩ :: zs) t =
        plugI zs (ATree.node i k v t sib) from rfl, hAB]
      show A ++ ((t.kvs ++ (k, v) :: sib.kvs) ++ B) = A ++ (t.kvs ++ ((k, v) :: (sib.kvs ++ B)))
      simp [List.append_assoc]
    · refine ⟨A ++ (sib.kvs ++ [(k, v)]), B, fun t => ?_⟩
      rw [show plugI (⟨Register.right, i, k, v, sib⟩ :: zs) t =
        plugI zs (ATree.node i k v sib t) from rfl, hAB]
      show A ++ ((sib.kvs ++ (k, v) :: t.kvs) ++ B) = (A ++ (sib.kvs ++ [(k, v)])) ++ (t.kvs ++ B)
      simp [List.append_assoc]
    · exact ⟨A, B, fun t => hAB t⟩

/-! ### Free-list lemmas -/

theorem FreeList.chainCongr {ns ns' : List U8Node} {seq h : Nat} {l : List Nat}
    (hf : FreeList ns seq h l) (hlen : ns'.length = ns.length)
    (hag : ∀ j ∈ l,
      (getNodeL ns' j).getRegister .height = (getNodeL ns j).getRegister .height) :
    FreeList ns' seq h l := by
  induction hf with
  | nil => exact .nil
  | cons hne h1 hle hreg htail ih =>
    rename_i h next l
    exact .cons hne h1 (by omega) ((hag h (List.mem_cons_self _ _)).trans hreg)
      (ih fun j hj => hag j (List.mem_cons_of_mem _ hj))

theorem FreeList.chainBounds {ns : List U8Node} {seq h : Nat} {l : List Nat}
    (hf : FreeList ns seq h l) : ∀ j ∈ l, 1 ≤ j ∧ j ≤ ns.length := by
  induction hf with
  | nil => intro j hj; cases hj
  | cons hne h1 hle hreg htail ih =>
    intro j hj
    rcases List.mem_cons.mp hj with hj | hj
    · subst hj
      exact ⟨h1, hle⟩
    · exact ih j hj

theorem FreeList.head_eq {ns : List U8Node} {seq h : Nat} {l : List Nat}
    (hf : FreeList ns seq h l) : (h = seq ∧ l = []) ∨ (∃ l', l = h :: l' ∧ h ≠ seq) := by
  cases hf with
  | nil => exact Or.inl ⟨rfl, rfl⟩
  | cons hne h1 hle hreg htail => exact Or.inr ⟨_, rfl, hne⟩

theorem FreeList.pop {ns : List U8Node} {seq h : Nat} {l : List Nat}
    (hf : FreeList ns seq h (h :: l)) :
    FreeList ns seq ((getNodeL ns h).getRegister .height) l := by
  cases hf with
  | cons hne h1 hle hreg htail =>
    rw [hreg]
    exact htail

theorem TreeState.alloc_modNode (s : TreeState) (i : Nat) (f : U8Node → U8Node) :
    (s.modNode i f).allocator = s.allocator := rfl

theorem TreeState.nodes_modNode (s : TreeState) (i : Nat) (f : U8Node → U8Node) :
    (s.modNode i f).nodes = modifyNode s.nodes i f := rfl

/-- Simulation of `add` on a well-formed allocator: it hands out a fresh
slot (the free-list head, or the next sequence slot), writes the key,
value and a zero height into it, bumps `size`, and maintains the
free-list/partition structure. -/
theorem add_sim {s : TreeState} {key value vseq : Nat} {fl live : List Nat}
    (h8 : s.allocator.fields.length = 8)
    (hok : NodesOk s.nodes)
    (hvs1 : 1 ≤ vseq) (hvs2 : vseq ≤ s.nodes.length + 1)
    (hseq : s.getF .sequence = vseq % 256)
    (hfl : FreeList s.nodes (vseq % 256) (s.getF .freeListHead) fl)
    (hpart : (live ++ fl).Perm (List.range' 1 (vseq - 1)))
    (hsize : s.getF .size = live.length)
    (hnotfull : ¬ s.getF .capacity ≤ s.getF .size)
    (hcap : s.getF .capacity = s.nodes.length) :
    ∃ i s3 fl' vseq',
      s.add key value = some (i, s3) ∧
      1 ≤ i ∧ i ≤ s.nodes.length ∧ i ∉ live ∧
      (getNodeL s3.nodes i).key = key ∧
      (getNodeL s3.nodes i).value = value ∧
      (getNodeL s3.nodes i).getRegister .height = 0 ∧
      (getNodeL s3.nodes i).getRegister .left = (getNodeL s.nodes i).getRegister .left ∧
      (getNodeL s3.nodes i).getRegister .right = (getNodeL s.nodes i).getRegister .right ∧
      (∀ j, 1 ≤ j → j ≤ 255 → j ≠ i → getNodeL s3.nodes j = getNodeL s.nodes j) ∧
      s3.nodes.length = s.nodes.length ∧
      NodesOk s3.nodes ∧
      s3.allocator.fields.length = 8 ∧
      s3.getF .root = s.getF .root ∧
      s3.getF .capacity = s.getF .capacity ∧
      s3.getF .size = live.length + 1 ∧
      1 ≤ vseq' ∧ vseq' ≤ s.nodes.length + 1 ∧
      s3.getF .sequence = vseq' % 256 ∧
      FreeList s3.nodes (vseq' % 256) (s3.getF .freeListHead) fl' ∧
      ((i :: live) ++ fl').Perm (List.range' 1 (vseq' - 1)) ∧
      (∀ j ∈ fl', j ∈ fl) := by
  have hL255 : s.nodes.length ≤ 255 := hok.1
  have hlenp : live.length + fl.length = vseq - 1 := by
    have := hpart.length_eq
    rw [List.length_append, List.length_range'] at this
    exact this
  have hndlf : (live ++ fl).Nodup :=
    (hpart.nodup_iff).mpr (List.nodup_range' 1 (vseq - 1) 1 one_pos)
  have hadd : s.add key value = (if s.getF .freeListHead = s.getF .sequence then
      (if u8sub (s.getF .sequence) 1 = s.getF .capacity then none
       else some ((s.setF .sequence (s.getF .sequence + 1)).setF .freeListHead
         (s.getF .sequence + 1)))
      else some (s.setF .freeListHead
        ((getNodeL s.nodes (s.getF .freeListHead)).getRegister .height))).map
      (fun s1 =>
        (s.getF .freeListHead, (s1.modNode (s.getF .freeListHead)
          (fun n => ({ n with key := key, value := value }).setRegister .height 0)).setF .size
            ((s1.modNode (s.getF .freeListHead)
              (fun n => ({ n with key := key, value := value }).setRegister .height 0)).getF
                .size + 1))) := rfl
  have husub : u8sub (s.getF .sequence) 1 = vseq - 1 := by
    rw [hseq]
    show (vseq % 256 + 256 - 1 % 256) % 256 = vseq - 1
    omega
  by_cases hflh : s.getF .freeListHead = s.getF .sequence
  · have hfle : fl = [] := by
      rcases hfl.head_eq with ⟨-, hl⟩ | ⟨l', hl, hne⟩
      · exact hl
      · rw [hseq] at hflh
        exact absurd hflh hne
    rw [hfle, List.append_nil] at hpart hndlf
    have hlive : live.length = vseq - 1 := by
      have hpl := hpart.length_eq
      rw [List.length_range'] at hpl
      exact hpl
    have hvlen : vseq ≤ s.nodes.length := by
      rw [hcap, hsize, hlive] at hnotfull
      omega
    have hv255 : vseq ≤ 255 := by omega
    have hsmall : vseq % 256 = vseq := Nat.mod_eq_of_lt (by omega)
    have hnf2 : ¬ u8sub (s.getF .sequence) 1 = s.getF .capacity := by
      rw [husub, hcap]
      omega
    rw [hadd, if_pos hflh, if_neg hnf2, Option.map_some']
    have hi : s.getF .freeListHead = vseq := by
      rw [hflh, hseq, hsmall]
    set s1 : TreeState := (s.setF .sequence (s.getF .sequence + 1)).setF .freeListHead
      (s.getF .sequence + 1) with hs1
    have hn1 : s1.nodes = s.nodes := rfl
    have ha1len : s1.allocator.fields.length = 8 := by
      show ((s.allocator.setField .sequence _).setField .freeListHead _).fields.length = 8
      rw [U8Allocator.length_setField, U8Allocator.length_setField]
      exact h8
    set s2 : TreeState := s1.modNode (s.getF .freeListHead)
      (fun n => ({ n with key := key, value := value }).setRegister .height 0) with hs2
    have hn2 : s2.nodes = modifyNode s.nodes (s.getF .freeListHead)
        (fun n => ({ n with key := key, value := value }).setRegister .height 0) := rfl
    refine ⟨s.getF .freeListHead, _, [], vseq + 1, rfl, ?_⟩
    rw [hi]
    have hgi : getNodeL s2.nodes vseq =
        ({ getNodeL s.nodes vseq with key := key, value := value }).setRegister .height 0 := by
      rw [hi] at hn2
      rw [hn2]
      exact getNodeL_modifyNode_same s.nodes vseq _ (by omega) hvlen hL255
    have hreg4 : (getNodeL s.nodes vseq).registers.length = 4 := regLen_getNodeL hok vseq
    have hframe : ∀ j, 1 ≤ j → j ≤ 255 → j ≠ vseq →
        getNodeL s2.nodes j = getNodeL s.nodes j := by
      intro j hj1 hj2 hj
      rw [hi] at hn2
      rw [hn2]
      exact getNodeL_modifyNode_ne s.nodes j vseq _ hj1 hj2 (by omega) (by omega) hj
    have hnok2 : NodesOk s2.nodes := by
      rw [hn2]
      refine nodesOk_modifyNode hok _ _ fun n => ?_
      show (({ n with key := key, value := value }).setRegister .height 0).registers.length =
        n.registers.length
      rw [U8Node.regLen_setRegister]
    have hgf2 : ∀ f, s2.getF f = s1.getF f := fun f => TreeState.getF_modNode s1 _ _ f
    have hsz2 : s2.getF .size = live.length := by
      rw [hgf2]
      show (s1.allocator).getField .size = live.length
      show ((s.allocator.setField .sequence _).setField .freeListHead _).getField .size = _
      rw [U8Allocator.getField_setField_ne _ _ _ _ (by decide),
        U8Allocator.getField_setField_ne _ _ _ _ (by decide)]
      exact hsize
    have ha2len : s2.allocator.fields.length = 8 := ha1len
    refine ⟨by omega, hvlen, ?_, ?_, ?_, ?_, ?_, ?_, ?_, ?_, ?_, ?_, ?_, ?_, ?_,
      by omega, by omega, ?_, ?_, ?_, fun j hj => absurd hj (List.not_mem_nil j)⟩
    · intro hx
      have := (List.mem_range'_1.mp (hpart.mem_iff.mp hx)).2
      omega
    · show (getNodeL s2.nodes vseq).key = key
      rw [hgi]
      rfl
    · show (getNodeL s2.nodes vseq).value = value
      rw [hgi]
      rfl
    · show (getNodeL s2.nodes vseq).getRegister .height = 0
      rw [hgi, U8Node.getRegister_setRegister_same _ _ _ (by simp [hreg4]; decide)]
    · show (getNodeL s2.nodes vseq).getRegister .left = (getNodeL s.nodes vseq).getRegister .left
      rw [hgi, U8Node.getRegister_setRegister_ne _ _ _ _ (by decide)]
      rfl
    · show (getNodeL s2.nodes vseq).getRegister .right =
        (getNodeL s.nodes vseq).getRegister .right
      rw [hgi, U8Node.getRegister_setRegister_ne _ _ _ _ (by decide)]
      rfl
    · exact hframe
    · show s2.nodes.length = s.nodes.length
      rw [hn2]
      exact length_modifyNode _ _ _
    · exact hnok2
    · show (s2.allocator.setField .size _).fields.length = 8
      rw [U8Allocator.length_setField]
      exact ha2len
    · show (s2.setF .size _).getF .root = s.getF .root
      rw [TreeState.getF_setF_ne _ _ _ _ (by decide), hgf2]
      show ((s.allocator.setField .sequence _).setField .freeListHead _).getField .root = _
      rw [U8Allocator.getField_setField_ne _ _ _ _ (by decide),
        U8Allocator.getField_setField_ne _ _ _ _ (by decide)]
      rfl
    · show (s2.setF .size _).getF .capacity = s.getF .capacity
      rw [TreeState.getF_setF_ne _ _ _ _ (by decide), hgf2]
      show ((s.allocator.setField .sequence _).setField .freeListHead _).getField .capacity = _
      rw [U8Allocator.getField_setField_ne _ _ _ _ (by decide),
        U8Allocator.getField_setField_ne _ _ _ _ (by decide)]
      rfl
    · show (s2.setF .size (s2.getF .size + 1)).getF .size = live.length + 1
      rw [TreeState.getF_setF_same _ _ _ ha2len, hsz2, Nat.mod_eq_of_lt (by omega)]
    · show (s2.setF .size _).getF .sequence = (vseq + 1) % 256
      rw [TreeState.getF_setF_ne _ _ _ _ (by decide), hgf2]
      show ((s.allocator.setField .sequence (s.getF .sequence + 1)).setField .freeListHead
        (s.getF .sequence + 1)).getField .sequence = (vseq + 1) % 256
      rw [U8Allocator.getField_setField_ne _ _ _ _ (by decide),
        s.allocator.getField_setField_same .sequence _ h8, hseq, hsmall]
    · have hflh3 : (s2.setF .size (s2.getF .size + 1)).getF .freeListHead =
          (vseq + 1) % 256 := by
        rw [TreeState.getF_setF_ne _ _ _ _ (by decide), hgf2]
        show ((s.allocator.setField .sequence (s.getF .sequence + 1)).setField .freeListHead
          (s.getF .sequence + 1)).getField .freeListHead = (vseq + 1) % 256
        rw [(s.allocator.setField .sequence _).getField_setField_same .freeListHead _
          (by rw [U8Allocator.length_setField]; exact h8), hseq, hsmall]
      rw [hflh3]
      exact .nil
    · rw [List.append_nil]
      show (vseq :: live).Perm (List.range' 1 (vseq + 1 - 1))
      have hv : vseq + 1 - 1 = (vseq - 1) + 1 := by omega
      rw [hv, List.range'_1_concat]
      have h1v : 1 + (vseq - 1) = vseq := by omega
      rw [h1v]
      exact ((hpart.cons vseq).trans (List.perm_append_singleton vseq _).symm)
  · rcases hfl.head_eq with ⟨hh, -⟩ | ⟨fl', hfleq, hine⟩
    · rw [← hseq] at hh
      exact absurd hh hflh
    subst hfleq
    have hib := hfl.chainBounds (s.getF .freeListHead) (List.mem_cons_self _ _)
    have hinl : s.getF .freeListHead ∉ live := fun hx =>
      (List.nodup_append.mp hndlf).2.2 hx (List.mem_cons_self _ _)
    have hinf : s.getF .freeListHead ∉ fl' :=
      (List.nodup_cons.mp (List.nodup_append.mp hndlf).2.1).1
    have hnext := hfl.pop
    have hnext255 : (getNodeL s.nodes (s.getF .freeListHead)).getRegister .height ≤ 255 := by
      rcases hnext.head_eq with ⟨hh, -⟩ | ⟨l2, hl2, -⟩
      · rw [hh]
        omega
      · have := hnext.chainBounds _ (by rw [hl2]; exact List.mem_cons_self _ _)
        omega
    rw [hadd, if_neg hflh, Option.map_some']
    set i : Nat := s.getF .freeListHead with hidef
    set s1 : TreeState := s.setF .freeListHead
      ((getNodeL s.nodes (s.getF .freeListHead)).getRegister .height) with hs1
    have hn1 : s1.nodes = s.nodes := rfl
    have ha1len : s1.allocator.fields.length = 8 := by
      show (s.allocator.setField .freeListHead _).fields.length = 8
      rw [U8Allocator.length_setField]
      exact h8
    set s2 : TreeState := s1.modNode i
      (fun n => ({ n with key := key, value := value }).setRegister .height 0) with hs2
    have hn2 : s2.nodes = modifyNode s.nodes i
        (fun n => ({ n with key := key, value := value }).setRegister .height 0) := rfl
    have hflen : ((s.getF .freeListHead) :: fl').length = fl'.length + 1 := rfl
    have hgi : getNodeL s2.nodes i =
        ({ getNodeL s.nodes i with key := key, value := value }).setRegister .height 0 := by
      rw [hn2]
      exact getNodeL_modifyNode_same s.nodes i _ (by omega) (by omega) hL255
    have hreg4 : (getNodeL s.nodes i).registers.length = 4 := regLen_getNodeL hok i
    have hframe : ∀ j, 1 ≤ j → j ≤ 255 → j ≠ i →
        getNodeL s2.nodes j = getNodeL s.nodes j := by
      intro j hj1 hj2 hj
      rw [hn2]
      exact getNodeL_modifyNode_ne s.nodes j i _ hj1 hj2 (by omega) (by omega) hj
    have hnok2 : NodesOk s2.nodes := by
      rw [hn2]
      refine nodesOk_modifyNode hok _ _ fun n => ?_
      show (({ n with key := key, value := value }).setRegister .height 0).registers.length =
        n.registers.length
      rw [U8Node.regLen_setRegister]
    have hgf2 : ∀ f, s2.getF f = s1.getF f := fun f => TreeState.getF_modNode s1 _ _ f
    have hsz2 : s2.getF .size = live.length := by
      rw [hgf2]
      show (s.allocator.setField .freeListHead _).getField .size = live.length
      rw [U8Allocator.getField_setField_ne _ _ _ _ (by decide)]
      exact hsize
    have ha2len : s2.allocator.fields.length = 8 := ha1len
    refine ⟨i, _, fl', vseq, rfl, by omega, by omega, hinl, ?_, ?_, ?_, ?_, ?_, ?_, ?_, ?_,
      ?_, ?_, ?_, ?_, by omega, by omega, ?_, ?_, ?_,
      fun j hj => List.mem_cons_of_mem _ hj⟩
    · show (getNodeL s2.nodes i).key = key
      rw [hgi]
      rfl
    · show (getNodeL s2.nodes i).value = value
      rw [hgi]
      rfl
    · show (getNodeL s2.nodes i).getRegister .height = 0
      rw [hgi, U8Node.getRegister_setRegister_same _ _ _ (by simp [hreg4]; decide)]
    · show (getNodeL s2.nodes i).getRegister .left = (getNodeL s.nodes i).getRegister .left
      rw [hgi, U8Node.getRegister_setRegister_ne _ _ _ _ (by decide)]
      rfl
    · show (getNodeL s2.nodes i).getRegister .right = (getNodeL s.nodes i).getRegister .right
      rw [hgi, U8Node.getRegister_setRegister_ne _ _ _ _ (by decide)]
      rfl
    · exact hframe
    · show s2.nodes.length = s.nodes.length
      rw [hn2]
      exact length_modifyNode _ _ _
    · exact hnok2
    · show (s2.allocator.setField .size _).fields.length = 8
      rw [U8Allocator.length_setField]
      exact ha2len
    · show (s2.setF .size _).getF .root = s.getF .root
      rw [TreeState.getF_setF_ne _ _ _ _ (by decide), hgf2]
      show (s.allocator.setField .freeListHead _).getField .root = _
      rw [U8Allocator.getField_setField_ne _ _ _ _ (by decide)]
      rfl
    · show (s2.setF .size _).getF .capacity = s.getF .capacity
      rw [TreeState.getF_setF_ne _ _ _ _ (by decide), hgf2]
      show (s.allocator.setField .freeListHead _).getField .capacity = _
      rw [U8Allocator.getField_setField_ne _ _ _ _ (by decide)]
      rfl
    · show (s2.setF .size (s2.getF .size + 1)).getF .size = live.length + 1
      rw [TreeState.getF_setF_same _ _ _ ha2len, hsz2, Nat.mod_eq_of_lt (by omega)]
    · show (s2.setF .size _).getF .sequence = vseq % 256
      rw [TreeState.getF_setF_ne _ _ _ _ (by decide), hgf2]
      show (s.allocator.setField .freeListHead _).getField .sequence = vseq % 256
      rw [U8Allocator.getField_setField_ne _ _ _ _ (by decide)]
      exact hseq
    · have h255i : (getNodeL s.nodes i).getRegister .height ≤ 255 := hnext255
      have hlink : (getNodeL s.nodes (s.getF .freeListHead)).getRegister .height =
          (getNodeL s.nodes i).getRegister .height := rfl
      have hflh3 : (s2.setF .size (s2.getF .size + 1)).getF .freeListHead =
          (getNodeL s.nodes i).getRegister .height := by
        rw [TreeState.getF_setF_ne _ _ _ _ (by decide), hgf2]
        show (s.allocator.setField .freeListHead _).getField .freeListHead = _
        rw [s.allocator.getField_setField_same .freeListHead _ h8,
          Nat.mod_eq_of_lt (by omega)]
      rw [hflh3]
      have hlen2' : (s2.setF .size (s2.getF .size + 1)).nodes.length = s.nodes.length := by
        show s2.nodes.length = s.nodes.length
        rw [hn2]
        exact length_modifyNode _ _ _
      refine hnext.chainCongr hlen2' fun j hj => ?_
      have hjb := hnext.chainBounds j hj
      show (getNodeL s2.nodes j).getRegister .height = (getNodeL s.nodes j).getRegister .height
      exact congrArg (fun n => n.getRegister .height)
        (hframe j hjb.1 (by omega) (fun hx => hinf (hx ▸ hj)))
    · show ((i :: live) ++ fl').Perm (List.range' 1 (vseq - 1))
      refine List.Perm.trans ?_ hpart
      show (i :: (live ++ fl')).Perm (live ++ i :: fl')
      exact List.perm_middle.symm

/-- C6 (amended). For a node array of at most 255 slots, growth
absorption behaves as claimed: when the array outgrows the recorded
capacity, the capacity is raised to the array length; if
`free_list_head = sequence` nothing else changes, and otherwise the
surplus slots are threaded onto the free list and `sequence` is set past
them.  In the concrete `C + M` scenario (capacity 10 filled with keys
1..10, re-viewed over 13 slots), `capacity()` reports 13, three further
inserts of fresh keys succeed filling the tree again, and `get` on each
of the ten original keys still returns its original value. -/
theorem c6_growth_absorption_amended :
    (∀ s : TreeState, s.getF .capacity < s.nodes.length → s.nodes.length ≤ 255 →
      s.getF .sequence = s.getF .freeListHead →
      fromBytesMut s = s.setF .capacity s.nodes.length) ∧
    (∀ s : TreeState, s.getF .capacity < s.nodes.length → s.nodes.length ≤ 255 →
      s.getF .sequence ≠ s.getF .freeListHead →
      fromBytesMut s = (threadLoop (s.setF .capacity s.nodes.length) (s.getF .capacity)
        s.nodes.length).setF .sequence (s.nodes.length + 1)) ∧
    c6Grown.map (fun s => s.capacity) = some 13 ∧
    c6More.map (fun s => (s.len, s.isFull)) = some (13, true) ∧
    c6More.map (fun s => (List.range 10).all (fun k =>
      s.get (k + 1) == some (some (k + 1)))) = some true := by
  refine ⟨?_, ?_, rfl, rfl, rfl⟩
  · intro s h hle hpk
    have hmod : s.nodes.length % 256 = s.nodes.length := Nat.mod_eq_of_lt (by omega)
    have hp := fromBytesMut_packed s h
      (by rw [TreeState.seqFlh_setF_capacity]; exact hpk)
    rw [hmod] at hp
    exact hp
  · intro s h hle hne
    have hmod : s.nodes.length % 256 = s.nodes.length := Nat.mod_eq_of_lt (by omega)
    have hp := fromBytesMut_thread s h
      (fun hx => hne ((TreeState.seqFlh_setF_capacity s _).mp hx))
    rw [hmod] at hp
    exact hp

/-- Witness for the amended C6 statement: a concrete packed state with
capacity 2 over four slots has its capacity raised to 4. -/
theorem c6_growth_absorption_amended_witness :
    fromBytesMut ⟨⟨[0, 0, 2, 3, 3, 0, 0, 0]⟩, List.replicate 4 zeroNode⟩ =
      TreeState.setF ⟨⟨[0, 0, 2, 3, 3, 0, 0, 0]⟩, List.replicate 4 zeroNode⟩ .capacity
        (List.replicate 4 zeroNode).length :=
  c6_growth_absorption_amended.1 _ (by decide) (by decide) (by decide)
